import Mathlib

/-!
# rdexe: a reader for the MS-DOS "MZ" executable header

A shallow embedding of `src/rdexe.c` and theorems about it.

Target conventions used by the embedding (the ones of the x86-64 Linux
toolchain the program is written for):

* the host is little-endian and both records are packed, so a `uint16_t`
  field at byte offset `k` of a record is `byte[k] + 256 * byte[k+1]`;
* `int` is 32 bits wide; every `int` expression of the program is built from
  promoted `uint16_t` values and small constants and is computed here as an
  exact integer;
* `size_t` and `long` are 64 bits wide; conversion to `size_t` and `size_t`
  arithmetic are modulo `2^64`;
* a stream is a regular file: a byte sequence with a cursor; `fseek` past the
  end succeeds and a later `fread` there reads nothing;
* a short `fread` returns 0 and leaves in the object the bytes it consumed;
* standard output is flushed by `exit`, so everything printed before an exit
  is part of the report.
-/

namespace Rdexe

/-! ## Constants -/

/-- Constant `BLOCK_SIZE` of the source, of type `int`. -/
def BLOCK_SIZE : Int := 512

/-- Constant `PARAGRAPH_SIZE` of the source, of type `int`. -/
def PARAGRAPH_SIZE : Int := 16

/-- Constant `MAGIC` of the source, of type `int`. -/
def MAGIC : Int := 0x5a4d

/-- The `stdlib.h` success status. -/
def EXIT_SUCCESS : Nat := 0

/-- The `stdlib.h` failure status. -/
def EXIT_FAILURE : Nat := 1

/-! ## Machine integers -/

/-- Conversion of a signed integer to `size_t`: reduction modulo `2^64`. -/
def toSizeT (x : Int) : Nat := (x % 18446744073709551616).toNat

/-- Addition of two `size_t` values. -/
def addSizeT (a b : Nat) : Nat := (a + b) % 18446744073709551616

/-- Subtraction of two `size_t` values. -/
def subSizeT (a b : Nat) : Nat := toSizeT ((a : Int) - (b : Int))

/-- Multiplication of two `size_t` values. -/
def mulSizeT (a b : Nat) : Nat := (a * b) % 18446744073709551616

/-- Conversion of a `size_t` value to `long` (64 bits, twos complement). -/
def toLong (n : Nat) : Int :=
  if n < 9223372036854775808 then (n : Int) else (n : Int) - 18446744073709551616

/-- The value printed by a `%hu` or `%hx` conversion: the `int` argument is
converted to `unsigned short` first. -/
def toUShort (x : Int) : Nat := (x % 65536).toNat

/-- The value printed by `%d` when it is handed a `size_t`: the low 32 bits,
read as a signed `int`. -/
def fmt_d (n : Nat) : Int :=
  if n % 4294967296 < 2147483648 then ((n % 4294967296 : Nat) : Int)
  else ((n % 4294967296 : Nat) : Int) - 4294967296

/-! ## Records -/

/-- One byte of a file. -/
abbrev Byte := Fin 256

/-- The packed 28-byte record `EXE_HEADER`; each field is a `uint16_t`. -/
structure EXE_HEADER where
  e_signature : Nat
  e_bytes_in_last_block : Nat
  e_blocks_in_file : Nat
  e_num_relocs : Nat
  e_header_paragraphs : Nat
  e_min_extra_paragraphs : Nat
  e_max_extra_paragraphs : Nat
  e_ss : Nat
  e_sp : Nat
  e_checksum : Nat
  e_ip : Nat
  e_cs : Nat
  e_reloc_table_offset : Nat
  e_overlay_number : Nat
  deriving Repr, DecidableEq

/-- The packed 4-byte record `EXE_RELOC`. -/
structure EXE_RELOC where
  r_offset : Nat
  r_segment : Nat
  deriving Repr, DecidableEq

/-- Size in bytes of `EXE_HEADER`. -/
def sizeof_EXE_HEADER : Nat := 28

/-- Size in bytes of `EXE_RELOC`. -/
def sizeof_EXE_RELOC : Nat := 4

/-- The `uint16_t` stored little-endian in two bytes. -/
def le16 (b0 b1 : Byte) : Nat := b0.val + 256 * b1.val

/-- The `uint16_t` at byte offset `k` of a buffer. -/
def word (buf : List Byte) (k : Nat) : Nat := le16 (buf.getD k 0) (buf.getD (k + 1) 0)

/-- The header record held by a 28-byte buffer. -/
def asHeader (buf : List Byte) : EXE_HEADER where
  e_signature := word buf 0
  e_bytes_in_last_block := word buf 2
  e_blocks_in_file := word buf 4
  e_num_relocs := word buf 6
  e_header_paragraphs := word buf 8
  e_min_extra_paragraphs := word buf 10
  e_max_extra_paragraphs := word buf 12
  e_ss := word buf 14
  e_sp := word buf 16
  e_checksum := word buf 18
  e_ip := word buf 20
  e_cs := word buf 22
  e_reloc_table_offset := word buf 24
  e_overlay_number := word buf 26

/-- The relocation record held by a 4-byte buffer. -/
def asReloc (buf : List Byte) : EXE_RELOC where
  r_offset := word buf 0
  r_segment := word buf 2

/-! ## Streams -/

/-- An open stream over a regular file: its bytes and the cursor. -/
structure FILE where
  data : List Byte
  pos : Nat
  deriving Repr, DecidableEq

/-- Call `fopen(path, "rb")` on a file with the given content. -/
def fopen (content : List Byte) : FILE := { data := content, pos := 0 }

/-- Call `fread(ptr, size, 1, fp)`: the item when all `size` bytes were there
(the call returns 1), and the stream with its cursor moved past the bytes
that were consumed. -/
def fread (size : Nat) (fp : FILE) : Option (List Byte) × FILE :=
  let got := (fp.data.drop fp.pos).take size
  (if got.length = size then some got else none, { fp with pos := fp.pos + got.length })

/-- Call `fseek(fp, offset, SEEK_SET)`: a negative offset is refused and
leaves the cursor where it was. -/
def fseek (fp : FILE) (offset : Int) : FILE :=
  if offset < 0 then fp else { fp with pos := offset.toNat }

/-! ## The report -/

/-- One `printf` to standard output, with the values it prints. -/
inductive Line where
  | headerSize (hs : Nat)
  | wholeFileSize (wfz : Nat)
  | loadMemorySize (n : Nat)
  | memoryLimit (lo hi : Nat)
  | relativeSsSp (ss sp : Nat)
  | relativeCsIp (cs ip : Nat)
  | relocs (n offset : Nat)
  | reloc (i : Int) (segment offset refseg : Nat)
  deriving Repr, DecidableEq

/-- One `fprintf` to standard error. -/
inductive Diag where
  | usage
  | openFailed
  | headerRead
  | notDosExe
  | mallocError
  | relocRead
  deriving Repr, DecidableEq

/-- What a run leaves behind: the exit status, both output streams, and
whether `fclose` and `free` were called. -/
structure Outcome where
  status : Nat
  stdout : List Line
  stderr : List Diag
  fclosed : Bool
  freed : Bool
  deriving Repr, DecidableEq

/-! ## The program -/

/-- Local `hs` of `main`: the header size in bytes. -/
def hs (header : EXE_HEADER) : Nat :=
  toSizeT ((header.e_header_paragraphs : Int) * PARAGRAPH_SIZE)

/-- Local `wfz` of `main`: the whole file size in bytes. -/
def wfz (header : EXE_HEADER) : Nat :=
  toSizeT (if header.e_bytes_in_last_block = 0
    then (header.e_blocks_in_file : Int) * BLOCK_SIZE
    else ((header.e_blocks_in_file : Int) - 1) * BLOCK_SIZE
      + (header.e_bytes_in_last_block : Int))

/-- The seven lines printed for an accepted header. -/
def headerInfo (header : EXE_HEADER) : List Line :=
  [ Line.headerSize (hs header),
    Line.wholeFileSize (wfz header),
    Line.loadMemorySize (subSizeT (wfz header) (hs header)),
    Line.memoryLimit (toUShort ((header.e_min_extra_paragraphs : Int) * PARAGRAPH_SIZE))
      (toUShort ((header.e_max_extra_paragraphs : Int) * PARAGRAPH_SIZE)),
    Line.relativeSsSp (toUShort header.e_ss) (toUShort header.e_sp),
    Line.relativeCsIp (toUShort header.e_cs) (toUShort header.e_ip),
    Line.relocs (toUShort header.e_num_relocs) (toUShort header.e_reloc_table_offset) ]

/-- The first loop of `main`: `n` calls of `fread` into `preloc`; `none` is
the jump to `out` at the first entry that cannot be read. -/
def readRelocs : Nat → FILE → Option (List EXE_RELOC × FILE)
  | 0, fp => some ([], fp)
  | n + 1, fp =>
    match fread sizeof_EXE_RELOC fp with
    | (none, _) => none
    | (some buf, fp1) =>
      match readRelocs n fp1 with
      | none => none
      | some (rest, fp2) => some (asReloc buf :: rest, fp2)

/-- Local `offset` of the second loop, a `long`. -/
def relocOffset (r : EXE_RELOC) (hs : Nat) : Int :=
  toLong (addSizeT (toSizeT (((r.r_segment <<< 4 : Nat) : Int) + (r.r_offset : Int))) hs)

/-- The second loop of `main`, from index `i` on: the lines it prints. -/
def resolveRelocs (hs : Nat) : Nat → List EXE_RELOC → FILE → List Line
  | _, [], _ => []
  | i, r :: rest, fp =>
    match fread 2 (fseek fp (relocOffset r hs)) with
    | (none, fp1) => resolveRelocs hs (i + 1) rest fp1
    | (some buf, fp1) =>
      Line.reloc (fmt_d i) (toUShort r.r_segment) (toUShort r.r_offset) (toUShort (word buf 0))
        :: resolveRelocs hs (i + 1) rest fp1

/-- Label `out` of `main`: release what is held and exit with failure. -/
def out (fp : Bool) (preloc : Bool) (stdout : List Line) (stderr : List Diag) : Outcome :=
  { status := EXIT_FAILURE, stdout := stdout, stderr := stderr, fclosed := fp, freed := preloc }

/-- Function `main`. The program is given `argc`, the content of the file
named by `argv[1]` when it can be opened, and the allocator: `malloc n` tells
whether a request for `n` bytes returns a non-null pointer. -/
def main (argc : Nat) (file : Option (List Byte)) (malloc : Nat → Bool) : Outcome :=
  if argc ≠ 2 then
    { status := EXIT_FAILURE, stdout := [], stderr := [Diag.usage],
      fclosed := false, freed := false }
  else
    match file with
    | none =>
      { status := EXIT_FAILURE, stdout := [], stderr := [Diag.openFailed],
        fclosed := false, freed := false }
    | some content =>
      match fread sizeof_EXE_HEADER (fopen content) with
      | (none, _) => out true false [] [Diag.headerRead]
      | (some buf, fp) =>
        let header := asHeader buf
        if (header.e_signature : Int) ≠ MAGIC then out true false [] [Diag.notDosExe]
        else
          let info := headerInfo header
          if malloc (mulSizeT header.e_num_relocs sizeof_EXE_RELOC) = false then
            out true false info [Diag.mallocError]
          else
            match readRelocs header.e_num_relocs
                (fseek fp (header.e_reloc_table_offset : Int)) with
            | none => out true true info [Diag.relocRead]
            | some (preloc, fp1) =>
              { status := EXIT_SUCCESS,
                stdout := info ++ resolveRelocs (hs header) 0 preloc fp1,
                stderr := [], fclosed := false, freed := false }

/-! ## The program with its memory made explicit

The same program, with the objects that `fread` fills laid out as memory: the
local `header`, the buffer returned by `malloc` and the local `r_refseg`. Each
of them holds indeterminate bytes until it is written; these bytes are inputs
of the run. -/

/-- The bytes of an object in memory, by offset. -/
abbrev Mem := Nat → Byte

/-- The object `mem` after `bytes` were stored in it from offset `off` on. -/
def store (mem : Mem) (off : Nat) (bytes : List Byte) : Mem :=
  fun a => if off ≤ a ∧ a < off + bytes.length then bytes.getD (a - off) 0 else mem a

/-- The `uint16_t` at byte offset `k` of an object. -/
def wordAt (mem : Mem) (k : Nat) : Nat := le16 (mem k) (mem (k + 1))

/-- The local `header`, read through its fields. -/
def headerAt (mem : Mem) : EXE_HEADER where
  e_signature := wordAt mem 0
  e_bytes_in_last_block := wordAt mem 2
  e_blocks_in_file := wordAt mem 4
  e_num_relocs := wordAt mem 6
  e_header_paragraphs := wordAt mem 8
  e_min_extra_paragraphs := wordAt mem 10
  e_max_extra_paragraphs := wordAt mem 12
  e_ss := wordAt mem 14
  e_sp := wordAt mem 16
  e_checksum := wordAt mem 18
  e_ip := wordAt mem 20
  e_cs := wordAt mem 22
  e_reloc_table_offset := wordAt mem 24
  e_overlay_number := wordAt mem 26

/-- The element `preloc[i]` of the buffer `preloc`. -/
def relocAt (preloc : Mem) (i : Nat) : EXE_RELOC where
  r_offset := wordAt preloc (4 * i)
  r_segment := wordAt preloc (4 * i + 2)

/-- Call `fread(ptr, size, 1, fp)` where `ptr` points at offset `off` of the
object `mem`: whether the call returned 1, the object with the bytes that were
consumed stored in it (all `size` of them, or fewer on a short read), and the
stream with its cursor moved past them. -/
def freadAt (mem : Mem) (off size : Nat) (fp : FILE) : Bool × Mem × FILE :=
  let got := (fp.data.drop fp.pos).take size
  (decide (got.length = size), store mem off got, { fp with pos := fp.pos + got.length })

/-- The first loop of `main` from index `i` on, `n` rounds, on the buffer
`preloc`: `none` is the jump to `out`. -/
def readRelocsAt : Nat → Nat → Mem → FILE → Option (Mem × FILE)
  | 0, _, preloc, fp => some (preloc, fp)
  | n + 1, i, preloc, fp =>
    match freadAt preloc (sizeof_EXE_RELOC * i) sizeof_EXE_RELOC fp with
    | (false, _, _) => none
    | (true, preloc1, fp1) => readRelocsAt n (i + 1) preloc1 fp1

/-- The second loop of `main` from index `i` on, `n` rounds: the lines it
prints. `r_refseg i` is what the local `r_refseg` holds when round `i` begins. -/
def resolveRelocsAt (hs : Nat) (r_refseg : Nat → Mem) (preloc : Mem) :
    Nat → Nat → FILE → List Line
  | 0, _, _ => []
  | n + 1, i, fp =>
    match freadAt (r_refseg i) 0 2 (fseek fp (relocOffset (relocAt preloc i) hs)) with
    | (false, _, fp1) => resolveRelocsAt hs r_refseg preloc n (i + 1) fp1
    | (true, refseg, fp1) =>
      Line.reloc (fmt_d i) (toUShort (relocAt preloc i).r_segment)
          (toUShort (relocAt preloc i).r_offset) (toUShort (wordAt refseg 0))
        :: resolveRelocsAt hs r_refseg preloc n (i + 1) fp1

/-- Function `main` with its memory: besides `argc`, the file and the
allocator, the run is given what the local `header` holds at entry, what the
buffer returned by `malloc` holds, and what `r_refseg` holds at the beginning
of each round of the second loop. -/
def mainWithMemory (argc : Nat) (file : Option (List Byte)) (malloc : Nat → Bool)
    (header0 heap : Mem) (r_refseg : Nat → Mem) : Outcome :=
  if argc ≠ 2 then
    { status := EXIT_FAILURE, stdout := [], stderr := [Diag.usage],
      fclosed := false, freed := false }
  else
    match file with
    | none =>
      { status := EXIT_FAILURE, stdout := [], stderr := [Diag.openFailed],
        fclosed := false, freed := false }
    | some content =>
      match freadAt header0 0 sizeof_EXE_HEADER (fopen content) with
      | (false, _, _) => out true false [] [Diag.headerRead]
      | (true, headerMem, fp) =>
        let header := headerAt headerMem
        if (header.e_signature : Int) ≠ MAGIC then out true false [] [Diag.notDosExe]
        else
          let info := headerInfo header
          if malloc (mulSizeT header.e_num_relocs sizeof_EXE_RELOC) = false then
            out true false info [Diag.mallocError]
          else
            match readRelocsAt header.e_num_relocs 0 heap
                (fseek fp (header.e_reloc_table_offset : Int)) with
            | none => out true true info [Diag.relocRead]
            | some (preloc, fp1) =>
              { status := EXIT_SUCCESS,
                stdout := info
                  ++ resolveRelocsAt (hs header) r_refseg preloc header.e_num_relocs 0 fp1,
                stderr := [], fclosed := false, freed := false }

/-! ## The relocation resolver as the specification words it -/

/-- The relocation record stored at index `i` of a table that starts at byte
offset `base` of the file: `offset` is the little-endian word at
`base + 4 * i` and `segment` the one at `base + 4 * i + 2`. -/
def entryAt (data : List Byte) (base i : Nat) : EXE_RELOC :=
  { r_offset := word data (base + 4 * i), r_segment := word data (base + 4 * i + 2) }

/-- The `absolute_offset` that the specification gives a relocation entry:
`(entry.segment << 4) + entry.offset + header_size_bytes`, an exact integer. -/
def absoluteOffset (r : EXE_RELOC) (header_size_bytes : Nat) : Nat :=
  (r.r_segment <<< 4) + r.r_offset + header_size_bytes

/-- The resolved record that the specification gives table entry `i`: present when the
two bytes at `[absolute_offset, absolute_offset + 2)` are inside the file, and
then made of the index, the segment, the offset and the little-endian word
held by these two bytes. -/
def specResolveEntry (data : List Byte) (header_size_bytes i : Nat) (r : EXE_RELOC) :
    Option Line :=
  if absoluteOffset r header_size_bytes + 2 ≤ data.length then
    some (Line.reloc (i : Int) r.r_segment r.r_offset
      (word data (absoluteOffset r header_size_bytes)))
  else none

/-- The resolved sequence that the specification gives a file: the resolved records of
the table entries `0 .. num_relocs - 1`, in table order. -/
def specResolved (data : List Byte) (header : EXE_HEADER) : List Line :=
  (List.range header.e_num_relocs).filterMap fun i =>
    specResolveEntry data (header.e_header_paragraphs * 16) i
      (entryAt data header.e_reloc_table_offset i)

/-! ## Sample files -/

/-- The two bytes that store a `uint16_t` little-endian. -/
def bytes16 (n : Nat) : List Byte := [Fin.ofNat (n % 256), Fin.ofNat (n / 256 % 256)]

/-- The 28 bytes that store a header record. -/
def headerBytes (h : EXE_HEADER) : List Byte :=
  bytes16 h.e_signature ++ bytes16 h.e_bytes_in_last_block ++ bytes16 h.e_blocks_in_file
    ++ bytes16 h.e_num_relocs ++ bytes16 h.e_header_paragraphs
    ++ bytes16 h.e_min_extra_paragraphs ++ bytes16 h.e_max_extra_paragraphs
    ++ bytes16 h.e_ss ++ bytes16 h.e_sp ++ bytes16 h.e_checksum ++ bytes16 h.e_ip
    ++ bytes16 h.e_cs ++ bytes16 h.e_reloc_table_offset ++ bytes16 h.e_overlay_number

/-- A header with the signature and nothing else set. -/
def blankHeader : EXE_HEADER :=
  { e_signature := 0x5a4d, e_bytes_in_last_block := 0, e_blocks_in_file := 0, e_num_relocs := 0,
    e_header_paragraphs := 0, e_min_extra_paragraphs := 0, e_max_extra_paragraphs := 0,
    e_ss := 0, e_sp := 0, e_checksum := 0, e_ip := 0, e_cs := 0, e_reloc_table_offset := 0,
    e_overlay_number := 0 }

/-- A 40-byte file: a 32-byte header (two paragraphs) that holds a table of
two relocation entries at offset 28, then the words `0xBEEF` and `0xCAFE`.
Entry 0 is `0000:0004` and points at byte 36; entry 1 is `1000:0006` and
points past the end of the file. The header declares 3 blocks with 100 bytes
in the last one, and the usual maximum allocation `0xFFFF`. -/
def sampleExe : List Byte :=
  headerBytes { blankHeader with
      e_bytes_in_last_block := 100, e_blocks_in_file := 3, e_num_relocs := 2,
      e_header_paragraphs := 2, e_min_extra_paragraphs := 1, e_max_extra_paragraphs := 0xFFFF,
      e_reloc_table_offset := 28 }
    ++ bytes16 0x0004 ++ bytes16 0x0000 ++ bytes16 0x0006 ++ bytes16 0x1000
    ++ bytes16 0xBEEF ++ bytes16 0xCAFE

/-- The first 27 bytes of `sampleExe`: they start with `0x4D 0x5A` and stop one
byte short of a header. -/
def shortExe : List Byte := sampleExe.take 27

/-- A 28-byte file whose first two bytes are `ZM` instead of `MZ`. -/
def wrongMagicExe : List Byte := headerBytes { blankHeader with e_signature := 0x4d5a }

/-- A 28-byte file whose header declares no block and 100 bytes in the last
block. -/
def noBlockExe : List Byte := headerBytes { blankHeader with e_bytes_in_last_block := 100 }

/-- A 28-byte file whose header declares a one-byte file (one block, one byte
in it) and a header of one paragraph. -/
def tinyImageExe : List Byte :=
  headerBytes { blankHeader with
    e_bytes_in_last_block := 1, e_blocks_in_file := 1, e_header_paragraphs := 1 }

/-- A 28-byte file with no relocation entry and a relocation table offset of
64, past its end. -/
def emptyTableExe : List Byte :=
  headerBytes { blankHeader with
    e_bytes_in_last_block := 28, e_blocks_in_file := 1, e_header_paragraphs := 2,
    e_reloc_table_offset := 64 }

/-- The first 33 bytes of `sampleExe`: the first relocation entry is whole,
the second is cut after one byte. -/
def cutTableExe : List Byte := sampleExe.take 33

/-- An allocator that never fails. -/
def mallocOk : Nat → Bool := fun _ => true

/-- The fourteen fields of a header record, in the order of their declaration
in `EXE_HEADER` (byte offsets `00`, `02`, ..., `1A`). -/
def headerFields (h : EXE_HEADER) : List Nat :=
  [ h.e_signature, h.e_bytes_in_last_block, h.e_blocks_in_file, h.e_num_relocs,
    h.e_header_paragraphs, h.e_min_extra_paragraphs, h.e_max_extra_paragraphs,
    h.e_ss, h.e_sp, h.e_checksum, h.e_ip, h.e_cs, h.e_reloc_table_offset,
    h.e_overlay_number ]

/-- A 32-byte file: a header that declares one relocation entry at offset 28,
and the entry `1000:0000`, which points far past the end of the file. -/
def skippedExe : List Byte :=
  headerBytes { blankHeader with
      e_bytes_in_last_block := 32, e_blocks_in_file := 1, e_num_relocs := 1,
      e_header_paragraphs := 2, e_reloc_table_offset := 28 }
    ++ bytes16 0x0000 ++ bytes16 0x1000

/-- An allocator that serves requests below 100 bytes only. -/
def mallocSmall : Nat → Bool := fun n => decide (n < 100)

/-- An object whose bytes are all `0x00`. -/
def zeroMem : Mem := fun _ => 0

/-- An object whose bytes are all `0xFF`. -/
def onesMem : Mem := fun _ => 0xFF

/-! ## Lemmas on the stream model and the two loops -/

/-- Two bytes make a 16-bit value. -/
theorem le16_lt (b0 b1 : Byte) : le16 b0 b1 < 65536 := by
  unfold le16
  have h0 := b0.isLt
  have h1 := b1.isLt
  omega

/-- Every decoded word is a 16-bit value. -/
theorem word_lt (buf : List Byte) (k : Nat) : word buf k < 65536 := le16_lt _ _

/-- A word of a buffer filled by a read is the word of the file at the same place. -/
theorem word_take_drop (data : List Byte) (p size k : Nat) (h : k + 2 ≤ size) :
    word ((data.drop p).take size) k = word data (p + k) := by
  have h0 : k < size := by omega
  have h1 : k + 1 < size := by omega
  unfold word
  simp only [List.getD_eq_getElem?_getD, List.getElem?_take, List.getElem?_drop, h0, h1, if_true,
    Nat.add_assoc]

/-- A read returns its item exactly when `size` bytes are left behind the cursor. -/
theorem fread_fst (size : Nat) (fp : FILE) :
    (fread size fp).1 =
      if size ≤ fp.data.length - fp.pos then some ((fp.data.drop fp.pos).take size) else none := by
  unfold fread
  simp only [List.length_take, List.length_drop]
  by_cases h : size ≤ fp.data.length - fp.pos
  · simp [h]
  · have : ¬ (min size (fp.data.length - fp.pos) = size) := by omega
    simp [h, this]

/-- A read leaves the bytes of the file as they are. -/
theorem fread_snd_data (size : Nat) (fp : FILE) : (fread size fp).2.data = fp.data := rfl

/-- A complete read moves the cursor by `size`. -/
theorem fread_snd_pos (size : Nat) (fp : FILE) (h : size ≤ fp.data.length - fp.pos) :
    (fread size fp).2.pos = fp.pos + size := by
  unfold fread
  simp only [List.length_take, List.length_drop]
  omega

/-- The result of a complete read. -/
theorem fread_ok (size : Nat) (fp : FILE) (h : size ≤ fp.data.length - fp.pos) :
    fread size fp = (some ((fp.data.drop fp.pos).take size), { data := fp.data, pos := fp.pos + size }) := by
  have h1 := fread_fst size fp
  have h2 := fread_snd_pos size fp h
  have h3 := fread_snd_data size fp
  rw [if_pos h] at h1
  rcases hfr : fread size fp with ⟨a, ⟨d, p⟩⟩
  rw [hfr] at h1 h2 h3
  simp only at h1 h2 h3
  subst h1 h2 h3
  rfl

/-- The result of a read that finds fewer than `size` bytes. -/
theorem fread_fail (size : Nat) (fp : FILE) (h : ¬ size ≤ fp.data.length - fp.pos) :
    ∃ fp1, fread size fp = (none, fp1) ∧ fp1.data = fp.data := by
  have h1 := fread_fst size fp
  rw [if_neg h] at h1
  rcases hfr : fread size fp with ⟨a, fp1⟩
  rw [hfr] at h1
  simp only at h1
  subst h1
  refine ⟨fp1, rfl, ?_⟩
  have := fread_snd_data size fp
  rw [hfr] at this
  exact this


theorem asReloc_take_drop (data : List Byte) (p : Nat) :
    asReloc ((data.drop p).take 4) = entryAt data p 0 := by
  unfold asReloc entryAt
  rw [word_take_drop data p 4 0 (by omega), word_take_drop data p 4 2 (by omega)]

theorem entryAt_shift (data : List Byte) (base i : Nat) :
    entryAt data (base + 4) i = entryAt data base (i + 1) := by
  unfold entryAt
  have e : base + 4 + 4 * i = base + 4 * (i + 1) := by omega
  rw [e]

/-- The first loop on a table that lies inside the file: entry `i` of the
buffer is the record stored at index `i` of the table. -/
theorem readRelocs_ok (n : Nat) (fp : FILE) (h : fp.pos + 4 * n ≤ fp.data.length) :
    readRelocs n fp =
      some ((List.range n).map (entryAt fp.data fp.pos),
        { data := fp.data, pos := fp.pos + 4 * n }) := by
  induction n generalizing fp with
  | zero => rfl
  | succ n ih =>
    have h4 : sizeof_EXE_RELOC ≤ fp.data.length - fp.pos := by
      unfold sizeof_EXE_RELOC; omega
    have hrec := ih { data := fp.data, pos := fp.pos + 4 } (by simp only; omega)
    simp only at hrec
    unfold readRelocs
    rw [fread_ok _ fp h4]
    simp only [sizeof_EXE_RELOC]
    rw [hrec, asReloc_take_drop, List.range_succ_eq_map, List.map_cons, List.map_map]
    have hf : entryAt fp.data fp.pos ∘ Nat.succ = entryAt fp.data (fp.pos + 4) := by
      funext i
      simp only [Function.comp, Nat.succ_eq_add_one, entryAt_shift]
    rw [hf]
    have e : fp.pos + 4 + 4 * n = fp.pos + 4 * (n + 1) := by omega
    rw [e]

/-- The first loop on a table with at least one entry that does not lie inside
the file: the jump to `out`. -/
theorem readRelocs_truncated (n : Nat) (fp : FILE) (hn : 1 ≤ n)
    (h : fp.data.length < fp.pos + 4 * n) : readRelocs n fp = none := by
  induction n generalizing fp with
  | zero => omega
  | succ n ih =>
    unfold readRelocs
    by_cases h4 : sizeof_EXE_RELOC ≤ fp.data.length - fp.pos
    · rw [fread_ok _ fp h4]
      simp only
      unfold sizeof_EXE_RELOC at h4
      have hrec := ih { data := fp.data, pos := fp.pos + sizeof_EXE_RELOC }
        (by omega) (by simp only [sizeof_EXE_RELOC]; omega)
      rw [hrec]
    · obtain ⟨fp1, hfr, _⟩ := fread_fail _ fp h4
      rw [hfr]

theorem toUShort_of_lt (n : Nat) (h : n < 65536) : toUShort (n : Int) = n := by
  unfold toUShort
  omega

theorem fmt_d_of_lt (n : Nat) (h : n < 2147483648) : fmt_d n = (n : Int) := by
  unfold fmt_d
  have e : n % 4294967296 = n := by omega
  rw [e, if_pos h]

/-- For 16-bit operands the `long` offset of the second loop is the absolute
offset of the specification: no conversion wraps. -/
theorem relocOffset_eq (r : EXE_RELOC) (hsz : Nat) (hseg : r.r_segment < 65536)
    (hoff : r.r_offset < 65536) (hh : hsz ≤ 1048560) :
    relocOffset r hsz = ((absoluteOffset r hsz : Nat) : Int) := by
  unfold relocOffset toLong addSizeT toSizeT absoluteOffset
  rw [Nat.shiftLeft_eq]
  split <;> omega

/-- A seek to an offset that is not negative puts the cursor there. -/
theorem fseek_nat (fp : FILE) (a : Nat) : fseek fp (a : Int) = { data := fp.data, pos := a } := by
  unfold fseek
  have h : ¬ ((a : Int) < 0) := by omega
  rw [if_neg h, Int.toNat_ofNat]

theorem resolveRelocs_unfold (hsz i : Nat) (r : EXE_RELOC) (rest : List EXE_RELOC) (fp : FILE) :
    resolveRelocs hsz i (r :: rest) fp =
      match fread 2 (fseek fp (relocOffset r hsz)) with
      | (none, fp1) => resolveRelocs hsz (i + 1) rest fp1
      | (some buf, fp1) =>
        Line.reloc (fmt_d i) (toUShort r.r_segment) (toUShort r.r_offset) (toUShort (word buf 0))
          :: resolveRelocs hsz (i + 1) rest fp1 := by
  rw [resolveRelocs]

/-- One round of the second loop prints the resolved record of its entry, if
any, and goes on with the same file. -/
theorem resolveRelocs_cons (hsz i : Nat) (r : EXE_RELOC) (rest : List EXE_RELOC) (fp : FILE)
    (hseg : r.r_segment < 65536) (hoff : r.r_offset < 65536) (hh : hsz ≤ 1048560)
    (hi : i < 65536) :
    ∃ fp1, fp1.data = fp.data ∧
      resolveRelocs hsz i (r :: rest) fp =
        (specResolveEntry fp.data hsz i r).toList ++ resolveRelocs hsz (i + 1) rest fp1 := by
  rw [resolveRelocs_unfold, relocOffset_eq r hsz hseg hoff hh, fseek_nat]
  unfold specResolveEntry
  by_cases hin : absoluteOffset r hsz + 2 ≤ fp.data.length
  · have h2 : 2 ≤ ({ data := fp.data, pos := absoluteOffset r hsz } : FILE).data.length
        - ({ data := fp.data, pos := absoluteOffset r hsz } : FILE).pos := by
      simp only; omega
    rw [fread_ok 2 _ h2, if_pos hin]
    refine ⟨{ data := fp.data, pos := absoluteOffset r hsz + 2 }, rfl, ?_⟩
    simp only [Option.toList, List.singleton_append, List.cons_append, List.nil_append]
    rw [word_take_drop fp.data _ 2 0 (by omega), toUShort_of_lt _ hseg, toUShort_of_lt _ hoff,
      toUShort_of_lt _ (word_lt _ _), fmt_d_of_lt i (by omega), Nat.add_zero]
  · have h2 : ¬ 2 ≤ ({ data := fp.data, pos := absoluteOffset r hsz } : FILE).data.length
        - ({ data := fp.data, pos := absoluteOffset r hsz } : FILE).pos := by
      simp only; omega
    obtain ⟨fp1, hfr, hd⟩ := fread_fail 2 _ h2
    rw [hfr, if_neg hin]
    exact ⟨fp1, hd, rfl⟩

/-- The second loop over the entries of a table prints the resolved records of
the specification, in table order. -/
theorem resolveRelocs_table (data : List Byte) (base hsz : Nat) (hh : hsz ≤ 1048560) (k : Nat) :
    ∀ (i : Nat) (fp : FILE), fp.data = data → i + k ≤ 65536 →
      resolveRelocs hsz i ((List.range k).map fun j => entryAt data base (i + j)) fp =
        (List.range k).filterMap fun j =>
          specResolveEntry data hsz (i + j) (entryAt data base (i + j)) := by
  induction k with
  | zero => intro i fp _ _; rfl
  | succ k ih =>
    intro i fp hd hik
    rw [List.range_succ_eq_map, List.map_cons, List.map_map, List.filterMap_cons,
      List.filterMap_map]
    obtain ⟨fp1, hd1, hstep⟩ := resolveRelocs_cons hsz i (entryAt data base (i + 0))
      (List.map ((fun j => entryAt data base (i + j)) ∘ Nat.succ) (List.range k)) fp
      (word_lt _ _) (word_lt _ _) hh (by omega)
    rw [hstep, hd]
    have hf : ((fun j => entryAt data base (i + j)) ∘ Nat.succ)
        = fun j => entryAt data base (i + 1 + j) := by
      funext j
      simp only [Function.comp, Nat.succ_eq_add_one]
      rw [show i + (j + 1) = i + 1 + j by omega]
    have hg : ((fun j => specResolveEntry data hsz (i + j) (entryAt data base (i + j)))
        ∘ Nat.succ)
        = fun j => specResolveEntry data hsz (i + 1 + j) (entryAt data base (i + 1 + j)) := by
      funext j
      simp only [Function.comp, Nat.succ_eq_add_one]
      rw [show i + (j + 1) = i + 1 + j by omega]
    rw [hf, hg, ih (i + 1) fp1 (hd1.trans hd) (by omega)]
    simp only [Nat.add_zero]
    cases specResolveEntry data hsz i (entryAt data base i) <;> rfl

theorem word_take (data : List Byte) (size k : Nat) (h : k + 2 ≤ size) :
    word (data.take size) k = word data k := by
  have e := word_take_drop data 0 size k h
  rw [List.drop_zero, Nat.zero_add] at e
  exact e

/-- The header record depends on the first 28 bytes only. -/
theorem asHeader_take (content : List Byte) :
    asHeader (content.take 28) = asHeader content := by
  unfold asHeader
  simp only [word_take content 28 _ (by omega : (0 : Nat) + 2 ≤ 28),
    word_take content 28 _ (by omega : (2 : Nat) + 2 ≤ 28),
    word_take content 28 _ (by omega : (4 : Nat) + 2 ≤ 28),
    word_take content 28 _ (by omega : (6 : Nat) + 2 ≤ 28),
    word_take content 28 _ (by omega : (8 : Nat) + 2 ≤ 28),
    word_take content 28 _ (by omega : (10 : Nat) + 2 ≤ 28),
    word_take content 28 _ (by omega : (12 : Nat) + 2 ≤ 28),
    word_take content 28 _ (by omega : (14 : Nat) + 2 ≤ 28),
    word_take content 28 _ (by omega : (16 : Nat) + 2 ≤ 28),
    word_take content 28 _ (by omega : (18 : Nat) + 2 ≤ 28),
    word_take content 28 _ (by omega : (20 : Nat) + 2 ≤ 28),
    word_take content 28 _ (by omega : (22 : Nat) + 2 ≤ 28),
    word_take content 28 _ (by omega : (24 : Nat) + 2 ≤ 28),
    word_take content 28 _ (by omega : (26 : Nat) + 2 ≤ 28)]

/-- The run on a file shorter than a header. -/
theorem main_truncated_header (content : List Byte) (malloc : Nat → Bool)
    (h : content.length < 28) :
    main 2 (some content) malloc = out true false [] [Diag.headerRead] := by
  have hn : ¬ sizeof_EXE_HEADER ≤ (fopen content).data.length - (fopen content).pos := by
    simp only [fopen, sizeof_EXE_HEADER]; omega
  obtain ⟨fp1, hfr, _⟩ := fread_fail _ _ hn
  unfold main
  simp only [hfr, ne_eq, not_true_eq_false, if_false]

/-- The run on a file of at least 28 bytes, after the header read. -/
theorem main_header_read (content : List Byte) (malloc : Nat → Bool)
    (h : 28 ≤ content.length) :
    main 2 (some content) malloc =
      if ((asHeader content).e_signature : Int) ≠ MAGIC then out true false [] [Diag.notDosExe]
      else if malloc (mulSizeT (asHeader content).e_num_relocs sizeof_EXE_RELOC) = false then
        out true false (headerInfo (asHeader content)) [Diag.mallocError]
      else
        match readRelocs (asHeader content).e_num_relocs
            { data := content, pos := (asHeader content).e_reloc_table_offset } with
        | none => out true true (headerInfo (asHeader content)) [Diag.relocRead]
        | some (preloc, fp1) =>
          { status := EXIT_SUCCESS,
            stdout := headerInfo (asHeader content)
              ++ resolveRelocs (hs (asHeader content)) 0 preloc fp1,
            stderr := [], fclosed := false, freed := false } := by
  have hok : sizeof_EXE_HEADER ≤ (fopen content).data.length - (fopen content).pos := by
    simp only [fopen, sizeof_EXE_HEADER]; omega
  unfold main
  simp only [fread_ok _ _ hok, ne_eq, not_true_eq_false, if_false]
  simp only [fopen, sizeof_EXE_HEADER, List.drop_zero, asHeader_take, fseek_nat]

/-! ## Whole file size -/

/-- Claim C1, amended: for 16-bit `bytes_in_last_block` and `blocks_in_file`
for which the formula is not negative (`blocks_in_file ≥ 1`, or
`bytes_in_last_block = 0`, or `bytes_in_last_block ≥ 512`), the whole file size
computed by the program is `blocks_in_file × 512` when `bytes_in_last_block`
is 0 and `(blocks_in_file − 1) × 512 + bytes_in_last_block` otherwise; `(0, 2)`
gives 1024 and `(100, 3)` gives 1124. -/
theorem wfz_eq_formula (header : EXE_HEADER)
    (hb : header.e_bytes_in_last_block < 65536) (hk : header.e_blocks_in_file < 65536)
    (hdom : 1 ≤ header.e_blocks_in_file ∨ header.e_bytes_in_last_block = 0
      ∨ 512 ≤ header.e_bytes_in_last_block) :
    ((wfz header : Int) =
      if header.e_bytes_in_last_block = 0 then (header.e_blocks_in_file : Int) * 512
      else ((header.e_blocks_in_file : Int) - 1) * 512 + (header.e_bytes_in_last_block : Int))
    ∧ wfz { blankHeader with e_bytes_in_last_block := 0, e_blocks_in_file := 2 } = 1024
    ∧ wfz { blankHeader with e_bytes_in_last_block := 100, e_blocks_in_file := 3 } = 1124 := by
  refine ⟨?_, by decide, by decide⟩
  unfold wfz toSizeT BLOCK_SIZE
  split <;> omega

/-- Witness for claim C1: the header of `sampleExe`, 3 blocks with 100
bytes in the last one. -/
theorem wfz_eq_formula_witness :
    (asHeader sampleExe).e_bytes_in_last_block < 65536
    ∧ (asHeader sampleExe).e_blocks_in_file < 65536
    ∧ (1 ≤ (asHeader sampleExe).e_blocks_in_file
        ∨ (asHeader sampleExe).e_bytes_in_last_block = 0
        ∨ 512 ≤ (asHeader sampleExe).e_bytes_in_last_block)
    ∧ (((wfz (asHeader sampleExe) : Int) =
        if (asHeader sampleExe).e_bytes_in_last_block = 0
        then ((asHeader sampleExe).e_blocks_in_file : Int) * 512
        else (((asHeader sampleExe).e_blocks_in_file : Int) - 1) * 512
          + ((asHeader sampleExe).e_bytes_in_last_block : Int))
      ∧ wfz { blankHeader with e_bytes_in_last_block := 0, e_blocks_in_file := 2 } = 1024
      ∧ wfz { blankHeader with e_bytes_in_last_block := 100, e_blocks_in_file := 3 } = 1124) :=
  ⟨by decide, by decide, by decide,
    wfz_eq_formula (asHeader sampleExe) (by decide) (by decide) (by decide)⟩

/-- Claim C1 fails as stated: for the accepted file `noBlockExe`
(`blocks_in_file = 0`, `bytes_in_last_block = 100`) the formula gives
`(0 − 1) × 512 + 100 = −412`, while the program computes and prints
18446744073709551204. -/
theorem wfz_no_block_counterexample :
    (asHeader noBlockExe).e_blocks_in_file = 0
    ∧ (asHeader noBlockExe).e_bytes_in_last_block = 100
    ∧ (main 2 (some noBlockExe) mallocOk).stdout[1]?
        = some (Line.wholeFileSize 18446744073709551204)
    ∧ wfz (asHeader noBlockExe) = 18446744073709551204
    ∧ (wfz (asHeader noBlockExe) : Int)
        ≠ (((asHeader noBlockExe).e_blocks_in_file : Int) - 1) * 512
          + ((asHeader noBlockExe).e_bytes_in_last_block : Int)
    ∧ wfz (asHeader noBlockExe)
        ≠ ((asHeader noBlockExe).e_blocks_in_file - 1) * 512
          + (asHeader noBlockExe).e_bytes_in_last_block := by
  decide

/-- Claim C2: for a file length `L` with `1 ≤ L ≤ 65535 × 512`, a header with
`blocks_in_file = ⌈L / 512⌉` and `bytes_in_last_block = L mod 512` makes the
whole file size computed by the program equal to `L`. -/
theorem wfz_recovers_length (header : EXE_HEADER) (L : Nat) (h1 : 1 ≤ L)
    (h2 : L ≤ 65535 * 512)
    (hk : header.e_blocks_in_file = (L + 511) / 512)
    (hb : header.e_bytes_in_last_block = L % 512) : wfz header = L := by
  unfold wfz toSizeT BLOCK_SIZE
  split <;> omega

/-- Witness for claim C2: a file of 1124 bytes, 3 blocks with 100
bytes in the last one. -/
theorem wfz_recovers_length_witness :
    1 ≤ 1124 ∧ 1124 ≤ 65535 * 512
    ∧ (asHeader sampleExe).e_blocks_in_file = (1124 + 511) / 512
    ∧ (asHeader sampleExe).e_bytes_in_last_block = 1124 % 512
    ∧ wfz (asHeader sampleExe) = 1124 :=
  ⟨by decide, by decide, by decide, by decide,
    wfz_recovers_length (asHeader sampleExe) 1124 (by decide) (by decide) (by decide)
      (by decide)⟩

/-! ## Relocation targets -/

/-- Claim C3: for a relocation entry and a `header_paragraphs`, all 16-bit,
the offset handed to `fseek` is `(segment << 4) + offset + header_paragraphs × 16`
as an exact integer, the cursor is put there, the two bytes read are the file
bytes at `[a, a + 2)` for that offset `a`, and the value printed for the entry
is `byte[a] + 256 × byte[a + 1]` (nothing is printed when the two bytes are not
both inside the file); segment `0x0010`, offset `0x0004` and a header of 32
bytes give offset 292 and a read of the bytes `[292, 294)`. -/
theorem reloc_target_read (r : EXE_RELOC) (header : EXE_HEADER) (fp : FILE) (i a : Nat)
    (hseg : r.r_segment < 65536) (hoff : r.r_offset < 65536)
    (hpar : header.e_header_paragraphs < 65536) (hi : i < 65536)
    (ha : a = (r.r_segment <<< 4) + r.r_offset + header.e_header_paragraphs * 16) :
    relocOffset r (hs header) = (a : Int)
    ∧ (fseek fp (relocOffset r (hs header))).pos = a
    ∧ (fread 2 (fseek fp (relocOffset r (hs header)))).1
        = (if a + 2 ≤ fp.data.length then some ((fp.data.drop a).take 2) else none)
    ∧ resolveRelocs (hs header) i [r] fp
        = (if a + 2 ≤ fp.data.length then
            [Line.reloc (i : Int) r.r_segment r.r_offset
              ((fp.data.getD a 0).val + 256 * (fp.data.getD (a + 1) 0).val)]
          else [])
    ∧ relocOffset { r_offset := 0x0004, r_segment := 0x0010 } 32 = 292
    ∧ (fread 2 (fseek fp (relocOffset { r_offset := 0x0004, r_segment := 0x0010 } 32))).1
        = (if 292 + 2 ≤ fp.data.length then some ((fp.data.drop 292).take 2) else none) := by
  have hhs : hs header = header.e_header_paragraphs * 16 := by
    unfold hs toSizeT PARAGRAPH_SIZE
    omega
  have habs : absoluteOffset r (hs header) = a := by
    unfold absoluteOffset
    rw [ha, hhs]
  have hoffset : relocOffset r (hs header) = (a : Int) := by
    rw [relocOffset_eq r (hs header) hseg hoff (by omega), habs]
  have h292 : relocOffset { r_offset := 0x0004, r_segment := 0x0010 } 32 = ((292 : Nat) : Int) := by
    decide
  have hread : ∀ b : Nat, (fread 2 (fseek fp (b : Int))).1
      = (if b + 2 ≤ fp.data.length then some ((fp.data.drop b).take 2) else none) := by
    intro b
    rw [fseek_nat, fread_fst]
    by_cases hin : b + 2 ≤ fp.data.length
    · have h2 : 2 ≤ fp.data.length - b := by omega
      simp only [hin, h2, if_true]
    · have h2 : ¬ 2 ≤ fp.data.length - b := by omega
      simp only [hin, h2, if_false]
  refine ⟨hoffset, ?_, ?_, ?_, h292, ?_⟩
  · rw [hoffset, fseek_nat]
  · rw [hoffset, hread]
  · obtain ⟨fp1, _, hstep⟩ := resolveRelocs_cons (hs header) i r [] fp hseg hoff (by omega) hi
    rw [hstep, habs.symm]
    unfold specResolveEntry
    by_cases hin : absoluteOffset r (hs header) + 2 ≤ fp.data.length
    · rw [if_pos hin, if_pos hin]
      rfl
    · rw [if_neg hin, if_neg hin]
      rfl
  · rw [h292, hread]

/-- Witness for claim C3: entry 0 of `sampleExe`, `0000:0004` behind
a header of two paragraphs, is read at offset 36. -/
theorem reloc_target_read_witness :
    (entryAt sampleExe 28 0).r_segment < 65536
    ∧ (entryAt sampleExe 28 0).r_offset < 65536
    ∧ (asHeader sampleExe).e_header_paragraphs < 65536
    ∧ relocOffset (entryAt sampleExe 28 0) (hs (asHeader sampleExe)) = ((36 : Nat) : Int)
    ∧ resolveRelocs (hs (asHeader sampleExe)) 0 [entryAt sampleExe 28 0] (fopen sampleExe)
        = (if 36 + 2 ≤ (fopen sampleExe).data.length then
            [Line.reloc ((0 : Nat) : Int) (entryAt sampleExe 28 0).r_segment
              (entryAt sampleExe 28 0).r_offset
              (((fopen sampleExe).data.getD 36 0).val
                + 256 * ((fopen sampleExe).data.getD (36 + 1) 0).val)]
          else []) :=
  have h := reloc_target_read (entryAt sampleExe 28 0) (asHeader sampleExe) (fopen sampleExe)
    0 36 (by decide) (by decide) (by decide) (by decide) (by decide)
  ⟨by decide, by decide, by decide, h.1, h.2.2.2.1⟩

/-- Claim C4: for a file with a valid header (at least 28 bytes, signature
`0x5A4D`) and a relocation table that is fully readable (it has no entry, or
it lies inside the file), when the table buffer is allocated, the report is
the seven header lines followed by exactly the resolved records of the
specification: for the entries `i` of the table, in table order, whose
`absolute_offset + 2` does not exceed the file length, the record of index `i`,
its segment, its offset and the word at its absolute offset; entries that
point past the end are left out and nothing else is. -/
theorem resolved_sequence_eq_spec (content : List Byte) (malloc : Nat → Bool)
    (h28 : 28 ≤ content.length) (hsig : (asHeader content).e_signature = 0x5a4d)
    (htable : (asHeader content).e_num_relocs = 0
      ∨ (asHeader content).e_reloc_table_offset + 4 * (asHeader content).e_num_relocs
        ≤ content.length)
    (hmalloc : malloc ((asHeader content).e_num_relocs * 4) = true) :
    (main 2 (some content) malloc).stdout
      = headerInfo (asHeader content) ++ specResolved content (asHeader content) := by
  have hn : (asHeader content).e_num_relocs < 65536 := word_lt _ _
  have hp : (asHeader content).e_header_paragraphs < 65536 := word_lt _ _
  have hhs : hs (asHeader content) = (asHeader content).e_header_paragraphs * 16 := by
    unfold hs toSizeT PARAGRAPH_SIZE
    omega
  have hmul : mulSizeT (asHeader content).e_num_relocs sizeof_EXE_RELOC
      = (asHeader content).e_num_relocs * 4 := by
    unfold mulSizeT sizeof_EXE_RELOC
    omega
  have hmagic : ¬ (((asHeader content).e_signature : Int) ≠ MAGIC) := by
    rw [hsig]; decide
  have hm : ¬ (malloc ((asHeader content).e_num_relocs * 4) = false) := by
    rw [hmalloc]; decide
  rw [main_header_read content malloc h28, if_neg hmagic, hmul, if_neg hm]
  rcases htable with hzero | hinside
  · unfold specResolved
    rw [hzero]
    rfl
  · rw [readRelocs_ok _ _ hinside]
    simp only
    have hres := resolveRelocs_table content (asHeader content).e_reloc_table_offset
      (hs (asHeader content)) (by omega) (asHeader content).e_num_relocs 0
      { data := content,
        pos := (asHeader content).e_reloc_table_offset + 4 * (asHeader content).e_num_relocs }
      rfl (by omega)
    simp only [Nat.zero_add] at hres
    have hfun : (fun j => entryAt content (asHeader content).e_reloc_table_offset j)
        = entryAt content (asHeader content).e_reloc_table_offset := rfl
    rw [hfun] at hres
    rw [hres, hhs]
    rfl

/-- Witness for claim C4: `sampleExe` has two entries; entry
0 is resolved to `0xBEEF` and entry 1, which points past the end, is left out. -/
theorem resolved_sequence_eq_spec_witness :
    28 ≤ sampleExe.length ∧ (asHeader sampleExe).e_signature = 0x5a4d
    ∧ ((asHeader sampleExe).e_num_relocs = 0
        ∨ (asHeader sampleExe).e_reloc_table_offset + 4 * (asHeader sampleExe).e_num_relocs
          ≤ sampleExe.length)
    ∧ specResolved sampleExe (asHeader sampleExe) = [Line.reloc 0 0 4 0xBEEF]
    ∧ (main 2 (some sampleExe) mallocOk).stdout
        = headerInfo (asHeader sampleExe) ++ specResolved sampleExe (asHeader sampleExe) :=
  ⟨by decide, by decide, by decide, by decide,
    resolved_sequence_eq_spec sampleExe mallocOk (by decide) (by decide) (by decide) rfl⟩

/-! ## Rejected files -/

/-- Claim C5: a file of at least 28 bytes whose signature field is not
`0x5A4D` is rejected with the failure status, whatever its other bytes are, and
nothing is written to the report. -/
theorem bad_signature_rejected (content : List Byte) (malloc : Nat → Bool)
    (h28 : 28 ≤ content.length) (hsig : (asHeader content).e_signature ≠ 0x5a4d) :
    (main 2 (some content) malloc).status = EXIT_FAILURE
    ∧ (main 2 (some content) malloc).stdout = [] := by
  have hmagic : ((asHeader content).e_signature : Int) ≠ MAGIC := by
    unfold MAGIC
    omega
  rw [main_header_read content malloc h28, if_pos hmagic]
  exact ⟨rfl, rfl⟩

/-- Witness for claim C5: the 28-byte file `wrongMagicExe`,
which starts with `0x5A 0x4D`. -/
theorem bad_signature_rejected_witness :
    28 ≤ wrongMagicExe.length ∧ (asHeader wrongMagicExe).e_signature ≠ 0x5a4d
    ∧ (main 2 (some wrongMagicExe) mallocOk).status = EXIT_FAILURE
    ∧ (main 2 (some wrongMagicExe) mallocOk).stdout = [] :=
  ⟨by decide, by decide, bad_signature_rejected wrongMagicExe mallocOk (by decide) (by decide)⟩

/-- Claim C6: a file shorter than 28 bytes makes the run fail with the failure
status and with an empty report. -/
theorem short_file_rejected (content : List Byte) (malloc : Nat → Bool)
    (h : content.length < 28) :
    (main 2 (some content) malloc).status = EXIT_FAILURE
    ∧ (main 2 (some content) malloc).stdout = [] := by
  rw [main_truncated_header content malloc h]
  exact ⟨rfl, rfl⟩

/-- Witness for claim C6: the 27-byte file `shortExe`, which starts
with `0x4D 0x5A`. -/
theorem short_file_rejected_witness :
    shortExe.length < 28 ∧ shortExe.take 2 = [0x4D, 0x5A]
    ∧ (main 2 (some shortExe) mallocOk).status = EXIT_FAILURE
    ∧ (main 2 (some shortExe) mallocOk).stdout = [] :=
  ⟨by decide, by decide, short_file_rejected shortExe mallocOk (by decide)⟩

/-- Claim C7, amended: for a file with a valid header and at least one declared
relocation entry, when `reloc_table_offset + 4 × num_relocs` exceeds the file
length the run ends with the failure status and the report holds the seven
header lines and no relocation line, whether or not leading entries of the
table were readable and whatever the allocator does. -/
theorem truncated_table_rejected (content : List Byte) (malloc : Nat → Bool)
    (h28 : 28 ≤ content.length) (hsig : (asHeader content).e_signature = 0x5a4d)
    (hn : 1 ≤ (asHeader content).e_num_relocs)
    (htable : content.length
      < (asHeader content).e_reloc_table_offset + 4 * (asHeader content).e_num_relocs) :
    (main 2 (some content) malloc).status = EXIT_FAILURE
    ∧ (main 2 (some content) malloc).stdout = headerInfo (asHeader content)
    ∧ ∀ (i : Int) (segment offset refseg : Nat),
        Line.reloc i segment offset refseg ∉ (main 2 (some content) malloc).stdout := by
  have hmagic : ¬ (((asHeader content).e_signature : Int) ≠ MAGIC) := by
    rw [hsig]; decide
  have hout : (main 2 (some content) malloc).status = EXIT_FAILURE
      ∧ (main 2 (some content) malloc).stdout = headerInfo (asHeader content) := by
    rw [main_header_read content malloc h28, if_neg hmagic]
    by_cases hm : malloc (mulSizeT (asHeader content).e_num_relocs sizeof_EXE_RELOC) = false
    · rw [if_pos hm]
      exact ⟨rfl, rfl⟩
    · rw [if_neg hm, readRelocs_truncated _ _ hn htable]
      exact ⟨rfl, rfl⟩
  refine ⟨hout.1, hout.2, ?_⟩
  intro i segment offset refseg hmem
  rw [hout.2] at hmem
  simp [headerInfo] at hmem

/-- Witness for claim C7: `cutTableExe` declares two entries
at offset 28 and stops after 33 bytes, inside the second entry. -/
theorem truncated_table_rejected_witness :
    28 ≤ cutTableExe.length ∧ (asHeader cutTableExe).e_signature = 0x5a4d
    ∧ 1 ≤ (asHeader cutTableExe).e_num_relocs
    ∧ cutTableExe.length
        < (asHeader cutTableExe).e_reloc_table_offset + 4 * (asHeader cutTableExe).e_num_relocs
    ∧ (main 2 (some cutTableExe) mallocOk).status = EXIT_FAILURE
    ∧ (main 2 (some cutTableExe) mallocOk).stdout = headerInfo (asHeader cutTableExe)
    ∧ ∀ (i : Int) (segment offset refseg : Nat),
        Line.reloc i segment offset refseg ∉ (main 2 (some cutTableExe) mallocOk).stdout :=
  ⟨by decide, by decide, by decide, by decide,
    truncated_table_rejected cutTableExe mallocOk (by decide) (by decide) (by decide)
      (by decide)⟩

/-- Claim C7 fails as stated: `emptyTableExe` has a valid header with
`num_relocs = 0` and `reloc_table_offset = 64`, so that
`reloc_table_offset + 4 × num_relocs` exceeds its 28 bytes, and the run, which
reads no entry, ends with the success status. -/
theorem empty_table_counterexample :
    28 ≤ emptyTableExe.length ∧ (asHeader emptyTableExe).e_signature = 0x5a4d
    ∧ emptyTableExe.length
        < (asHeader emptyTableExe).e_reloc_table_offset
          + 4 * (asHeader emptyTableExe).e_num_relocs
    ∧ (main 2 (some emptyTableExe) mallocOk).status = EXIT_SUCCESS
    ∧ (main 2 (some emptyTableExe) mallocOk).status ≠ EXIT_FAILURE := by
  decide

/-! ## Header geometry -/

/-- Claim C8: for `header_paragraphs` in `0..65535` the header size computed
by the program is `header_paragraphs × 16` exactly. -/
theorem hs_eq_paragraphs_mul (header : EXE_HEADER)
    (h : header.e_header_paragraphs < 65536) :
    hs header = header.e_header_paragraphs * 16 := by
  unfold hs toSizeT PARAGRAPH_SIZE
  omega

/-- Witness for claim C8: the largest header, 65535 paragraphs. -/
theorem hs_eq_paragraphs_mul_witness :
    ({ blankHeader with e_header_paragraphs := 65535 } : EXE_HEADER).e_header_paragraphs < 65536
    ∧ hs { blankHeader with e_header_paragraphs := 65535 }
        = ({ blankHeader with e_header_paragraphs := 65535 } : EXE_HEADER).e_header_paragraphs
          * 16 :=
  ⟨by decide, hs_eq_paragraphs_mul { blankHeader with e_header_paragraphs := 65535 } (by decide)⟩

/-- Claim C9, amended: for a file with an accepted header, the third line of
the report is the load memory size, and it is `whole_file_size −
header_size_bytes` computed in 64-bit unsigned arithmetic on the two values
derived from the header: the exact difference when the header size does not
exceed the whole file size, and `2^64 − (header_size_bytes − whole_file_size)`
when it does. -/
theorem load_size_reported (content : List Byte) (malloc : Nat → Bool)
    (h28 : 28 ≤ content.length) (hsig : (asHeader content).e_signature = 0x5a4d) :
    (main 2 (some content) malloc).stdout[2]?
      = some (Line.loadMemorySize (subSizeT (wfz (asHeader content)) (hs (asHeader content))))
    ∧ (hs (asHeader content) ≤ wfz (asHeader content) →
        subSizeT (wfz (asHeader content)) (hs (asHeader content))
          = wfz (asHeader content) - hs (asHeader content))
    ∧ (wfz (asHeader content) < hs (asHeader content) →
        subSizeT (wfz (asHeader content)) (hs (asHeader content))
          = 18446744073709551616 - (hs (asHeader content) - wfz (asHeader content))) := by
  have hmagic : ¬ (((asHeader content).e_signature : Int) ≠ MAGIC) := by
    rw [hsig]; decide
  have hw : wfz (asHeader content) < 18446744073709551616 := by
    unfold wfz toSizeT
    omega
  have hh : hs (asHeader content) < 18446744073709551616 := by
    unfold hs toSizeT
    omega
  refine ⟨?_, ?_, ?_⟩
  · rw [main_header_read content malloc h28, if_neg hmagic]
    by_cases hm : malloc (mulSizeT (asHeader content).e_num_relocs sizeof_EXE_RELOC) = false
    · rw [if_pos hm]
      rfl
    · rw [if_neg hm]
      cases readRelocs (asHeader content).e_num_relocs
        { data := content, pos := (asHeader content).e_reloc_table_offset } with
      | none => rfl
      | some p => rfl
  · intro hle
    unfold subSizeT toSizeT
    omega
  · intro hlt
    unfold subSizeT toSizeT
    omega

/-- Witness for claim C9: `sampleExe` declares 1124 bytes behind a
32-byte header and the report says 1092. -/
theorem load_size_reported_witness :
    28 ≤ sampleExe.length ∧ (asHeader sampleExe).e_signature = 0x5a4d
    ∧ subSizeT (wfz (asHeader sampleExe)) (hs (asHeader sampleExe)) = 1092
    ∧ (main 2 (some sampleExe) mallocOk).stdout[2]?
        = some (Line.loadMemorySize
            (subSizeT (wfz (asHeader sampleExe)) (hs (asHeader sampleExe)))) :=
  ⟨by decide, by decide, by decide,
    (load_size_reported sampleExe mallocOk (by decide) (by decide)).1⟩

/-- Claim C9 fails as stated: `tinyImageExe` has an accepted header with a
whole file size of 1 and a header size of 16, so that the difference is −15,
and the report gives 18446744073709551601 as the load memory size. -/
theorem load_size_counterexample :
    28 ≤ tinyImageExe.length ∧ (asHeader tinyImageExe).e_signature = 0x5a4d
    ∧ wfz (asHeader tinyImageExe) = 1 ∧ hs (asHeader tinyImageExe) = 16
    ∧ (main 2 (some tinyImageExe) mallocOk).stdout[2]?
        = some (Line.loadMemorySize 18446744073709551601)
    ∧ ((18446744073709551601 : Nat) : Int)
        ≠ (wfz (asHeader tinyImageExe) : Int) - (hs (asHeader tinyImageExe) : Int)
    ∧ (18446744073709551601 : Nat)
        ≠ wfz (asHeader tinyImageExe) - hs (asHeader tinyImageExe) := by
  decide

/-- Claim C10 is right and the code is not: `sampleExe` has an accepted header
with `min_extra_paragraphs = 1` and `max_extra_paragraphs = 0xFFFF`, that is
16 and 1048560 bytes, and the fourth line of the report gives 16 and 65520:
the products are printed through `%hu`, which keeps their low 16 bits. -/
theorem memory_limit_truncated :
    28 ≤ sampleExe.length ∧ (asHeader sampleExe).e_signature = 0x5a4d
    ∧ (asHeader sampleExe).e_min_extra_paragraphs * 16 = 16
    ∧ (asHeader sampleExe).e_max_extra_paragraphs * 16 = 1048560
    ∧ (main 2 (some sampleExe) mallocOk).stdout[3]? = some (Line.memoryLimit 16 65520) := by
  decide

/-! ## Decoding -/

/-- The signature field is `0x5A4D` exactly for the bytes `0x4D 0x5A`. -/
theorem signature_iff_bytes (content : List Byte) :
    (asHeader content).e_signature = 0x5a4d
      ↔ (content.getD 0 0 = 0x4D ∧ content.getD 1 0 = 0x5A) := by
  have h0 := (content.getD 0 0).isLt
  have h1 := (content.getD 1 0).isLt
  have hsig : (asHeader content).e_signature
      = (content.getD 0 0).val + 256 * (content.getD 1 0).val := rfl
  rw [hsig, Fin.ext_iff, Fin.ext_iff]
  have e0 : ((0x4D : Byte) : Nat) = 77 := rfl
  have e1 : ((0x5A : Byte) : Nat) = 90 := rfl
  rw [e0, e1]
  omega

/-- Claim C11: for a file of at least 28 bytes the header read takes its
first 28 bytes, and field `k` of the header record (`k = 0..13`, in the order
of declaration) is `byte[2k] + 256 × byte[2k+1]`; the run passes the signature
test, and prints the seven header lines, exactly when byte 0 is `0x4D` and
byte 1 is `0x5A`; and when the table lies inside the file, entry `i` read by
the first loop has `offset = byte[t] + 256 × byte[t+1]` and
`segment = byte[t+2] + 256 × byte[t+3]` for `t = reloc_table_offset + 4 × i`. -/
theorem decode_little_endian (content : List Byte) (malloc : Nat → Bool)
    (h28 : 28 ≤ content.length) :
    (fread sizeof_EXE_HEADER (fopen content)).1 = some (content.take 28)
    ∧ (∀ k, k < 14 →
        (headerFields (asHeader (content.take 28)))[k]?
          = some ((content.getD (2 * k) 0).val + 256 * (content.getD (2 * k + 1) 0).val))
    ∧ ((main 2 (some content) malloc).stdout.take 7 = headerInfo (asHeader (content.take 28))
        ↔ (content.getD 0 0 = 0x4D ∧ content.getD 1 0 = 0x5A))
    ∧ ((main 2 (some content) malloc).stderr = [Diag.notDosExe]
        ↔ ¬ (content.getD 0 0 = 0x4D ∧ content.getD 1 0 = 0x5A))
    ∧ ((asHeader (content.take 28)).e_reloc_table_offset
          + 4 * (asHeader (content.take 28)).e_num_relocs ≤ content.length →
        (readRelocs (asHeader (content.take 28)).e_num_relocs
            (fseek (fread sizeof_EXE_HEADER (fopen content)).2
              ((asHeader (content.take 28)).e_reloc_table_offset : Int))).map Prod.fst
          = some ((List.range (asHeader (content.take 28)).e_num_relocs).map fun i =>
              { r_offset :=
                  (content.getD ((asHeader (content.take 28)).e_reloc_table_offset + 4 * i) 0).val
                  + 256 * (content.getD
                      ((asHeader (content.take 28)).e_reloc_table_offset + 4 * i + 1) 0).val,
                r_segment :=
                  (content.getD
                      ((asHeader (content.take 28)).e_reloc_table_offset + 4 * i + 2) 0).val
                  + 256 * (content.getD
                      ((asHeader (content.take 28)).e_reloc_table_offset + 4 * i + 3) 0).val })) := by
  have hok : sizeof_EXE_HEADER ≤ (fopen content).data.length - (fopen content).pos := by
    simp only [fopen, sizeof_EXE_HEADER]; omega
  have hread := fread_ok _ _ hok
  simp only [fopen, sizeof_EXE_HEADER, List.drop_zero, Nat.zero_add] at hread
  have hread1 : (fread sizeof_EXE_HEADER (fopen content)).1 = some (content.take 28) := by
    simp only [fopen, sizeof_EXE_HEADER, hread]
  have hread2 : (fread sizeof_EXE_HEADER (fopen content)).2 = { data := content, pos := 28 } := by
    simp only [fopen, sizeof_EXE_HEADER, hread]
  rw [asHeader_take, hread2]
  have hrun := main_header_read content malloc h28
  have hsevn : headerInfo (asHeader content) ≠ [] := by
    simp [headerInfo]
  refine ⟨hread1, ?_, ?_, ?_, ?_⟩
  · intro k hk
    interval_cases k <;> rfl
  · rw [← signature_iff_bytes]
    by_cases hsig : (asHeader content).e_signature = 0x5a4d
    · have hmagic : ¬ (((asHeader content).e_signature : Int) ≠ MAGIC) := by
        rw [hsig]; decide
      rw [if_neg hmagic] at hrun
      refine ⟨fun _ => hsig, fun _ => ?_⟩
      rw [hrun]
      by_cases hm : malloc (mulSizeT (asHeader content).e_num_relocs sizeof_EXE_RELOC) = false
      · rw [if_pos hm]
        rfl
      · rw [if_neg hm]
        cases readRelocs (asHeader content).e_num_relocs
          { data := content, pos := (asHeader content).e_reloc_table_offset } with
        | none => rfl
        | some p => rfl
    · have hmagic : ((asHeader content).e_signature : Int) ≠ MAGIC := by
        unfold MAGIC
        omega
      rw [if_pos hmagic] at hrun
      refine ⟨fun h => ?_, fun h => absurd h hsig⟩
      rw [hrun] at h
      exact absurd h.symm hsevn
  · rw [← signature_iff_bytes]
    by_cases hsig : (asHeader content).e_signature = 0x5a4d
    · have hmagic : ¬ (((asHeader content).e_signature : Int) ≠ MAGIC) := by
        rw [hsig]; decide
      rw [if_neg hmagic] at hrun
      refine ⟨fun h => ?_, fun h => absurd hsig h⟩
      exfalso
      rw [hrun] at h
      by_cases hm : malloc (mulSizeT (asHeader content).e_num_relocs sizeof_EXE_RELOC) = false
      · rw [if_pos hm] at h
        simp [out] at h
      · rw [if_neg hm] at h
        cases hrd : readRelocs (asHeader content).e_num_relocs
          { data := content, pos := (asHeader content).e_reloc_table_offset } with
        | none =>
          rw [hrd] at h
          simp [out] at h
        | some p =>
          rw [hrd] at h
          simp at h
    · have hmagic : ((asHeader content).e_signature : Int) ≠ MAGIC := by
        unfold MAGIC
        omega
      rw [if_pos hmagic] at hrun
      refine ⟨fun _ => hsig, fun _ => ?_⟩
      rw [hrun]
      rfl
  · intro htable
    rw [fseek_nat, readRelocs_ok _ _ htable]
    rfl

/-- Witness for claim C11: `sampleExe` starts with `0x4D 0x5A`; its two table
entries are decoded as `0000:0004` and `1000:0006`. -/
theorem decode_little_endian_witness :
    28 ≤ sampleExe.length
    ∧ (fread sizeof_EXE_HEADER (fopen sampleExe)).1 = some (sampleExe.take 28)
    ∧ (∀ k, k < 14 →
        (headerFields (asHeader (sampleExe.take 28)))[k]?
          = some ((sampleExe.getD (2 * k) 0).val + 256 * (sampleExe.getD (2 * k + 1) 0).val))
    ∧ headerFields (asHeader (sampleExe.take 28))
        = [0x5a4d, 100, 3, 2, 2, 1, 0xFFFF, 0, 0, 0, 0, 0, 28, 0]
    ∧ (readRelocs 2 { data := sampleExe, pos := 28 }).map Prod.fst
        = some [{ r_offset := 4, r_segment := 0 }, { r_offset := 6, r_segment := 0x1000 }] :=
  have h := decode_little_endian sampleExe mallocOk (by decide)
  ⟨by decide, h.1, h.2.1, by decide, by decide⟩

/-! ## Exit status -/

/-- The whole outcome of a run on a file with a valid header and a readable
relocation table, when the table buffer is allocated. -/
theorem main_readable_table (content : List Byte) (malloc : Nat → Bool)
    (h28 : 28 ≤ content.length) (hsig : (asHeader content).e_signature = 0x5a4d)
    (htable : (asHeader content).e_num_relocs = 0
      ∨ (asHeader content).e_reloc_table_offset + 4 * (asHeader content).e_num_relocs
        ≤ content.length)
    (hmalloc : malloc ((asHeader content).e_num_relocs * 4) = true) :
    main 2 (some content) malloc =
      { status := EXIT_SUCCESS,
        stdout := headerInfo (asHeader content) ++ specResolved content (asHeader content),
        stderr := [], fclosed := false, freed := false } := by
  have hn : (asHeader content).e_num_relocs < 65536 := word_lt _ _
  have hp : (asHeader content).e_header_paragraphs < 65536 := word_lt _ _
  have hhs : hs (asHeader content) = (asHeader content).e_header_paragraphs * 16 := by
    unfold hs toSizeT PARAGRAPH_SIZE
    omega
  have hmul : mulSizeT (asHeader content).e_num_relocs sizeof_EXE_RELOC
      = (asHeader content).e_num_relocs * 4 := by
    unfold mulSizeT sizeof_EXE_RELOC
    omega
  have hmagic : ¬ (((asHeader content).e_signature : Int) ≠ MAGIC) := by
    rw [hsig]; decide
  have hm : ¬ (malloc ((asHeader content).e_num_relocs * 4) = false) := by
    rw [hmalloc]; decide
  rw [main_header_read content malloc h28, if_neg hmagic, hmul, if_neg hm]
  rcases htable with hzero | hinside
  · unfold specResolved
    rw [hzero]
    rfl
  · rw [readRelocs_ok _ _ hinside]
    simp only
    have hres := resolveRelocs_table content (asHeader content).e_reloc_table_offset
      (hs (asHeader content)) (by omega) (asHeader content).e_num_relocs 0
      { data := content,
        pos := (asHeader content).e_reloc_table_offset + 4 * (asHeader content).e_num_relocs }
      rfl (by omega)
    simp only [Nat.zero_add] at hres
    have hfun : (fun j => entryAt content (asHeader content).e_reloc_table_offset j)
        = entryAt content (asHeader content).e_reloc_table_offset := rfl
    rw [hfun] at hres
    rw [hres, hhs]
    rfl

/-- Claim C12: for a file of at least 28 bytes with signature `0x5A4D` and a
relocation table whose entries are all readable (it has none, or it lies inside
the file), when the table buffer is allocated, the run exits with the success
status and prints nothing to standard error, however many of the target reads
fail: the report is the seven header lines followed by the records of the
entries that resolve, and this holds as well when none does. -/
theorem success_despite_skipped_targets (content : List Byte) (malloc : Nat → Bool)
    (h28 : 28 ≤ content.length) (hsig : (asHeader content).e_signature = 0x5a4d)
    (htable : (asHeader content).e_num_relocs = 0
      ∨ (asHeader content).e_reloc_table_offset + 4 * (asHeader content).e_num_relocs
        ≤ content.length)
    (hmalloc : malloc ((asHeader content).e_num_relocs * 4) = true) :
    (main 2 (some content) malloc).status = EXIT_SUCCESS
    ∧ (main 2 (some content) malloc).stderr = []
    ∧ (specResolved content (asHeader content) = [] →
        (main 2 (some content) malloc).status = EXIT_SUCCESS
        ∧ (main 2 (some content) malloc).stdout = headerInfo (asHeader content)) := by
  have hrun := main_readable_table content malloc h28 hsig htable hmalloc
  have hstatus : (main 2 (some content) malloc).status = EXIT_SUCCESS := by
    rw [hrun]
  have hstderr : (main 2 (some content) malloc).stderr = [] := by
    rw [hrun]
  refine ⟨hstatus, hstderr, fun hnone => ⟨hstatus, ?_⟩⟩
  rw [hrun]
  simp only [hnone, List.append_nil]

/-- Witness for claim C12: `skippedExe` has one relocation entry and it points
past the end of the file; the run prints the header lines and succeeds. -/
theorem success_despite_skipped_targets_witness :
    28 ≤ skippedExe.length ∧ (asHeader skippedExe).e_signature = 0x5a4d
    ∧ (asHeader skippedExe).e_num_relocs = 1
    ∧ (asHeader skippedExe).e_reloc_table_offset + 4 * (asHeader skippedExe).e_num_relocs
        ≤ skippedExe.length
    ∧ specResolved skippedExe (asHeader skippedExe) = []
    ∧ (main 2 (some skippedExe) mallocOk).status = EXIT_SUCCESS
    ∧ (main 2 (some skippedExe) mallocOk).stdout = headerInfo (asHeader skippedExe) :=
  have h := success_despite_skipped_targets skippedExe mallocOk (by decide) (by decide)
    (by decide) rfl
  ⟨by decide, by decide, by decide, by decide, by decide, h.2.2 (by decide)⟩

/-- Claim C13: for a file with a valid header whose `num_relocs` field is 0,
when the (empty) table buffer is allocated, the report is the seven header
lines with no relocation line after them and the run exits with the success
status, whatever `reloc_table_offset` is. -/
theorem no_relocs_success (content : List Byte) (malloc : Nat → Bool)
    (h28 : 28 ≤ content.length) (hsig : (asHeader content).e_signature = 0x5a4d)
    (hzero : (asHeader content).e_num_relocs = 0) (hmalloc : malloc 0 = true) :
    (main 2 (some content) malloc).status = EXIT_SUCCESS
    ∧ (main 2 (some content) malloc).stdout = headerInfo (asHeader content)
    ∧ specResolved content (asHeader content) = []
    ∧ ∀ (i : Int) (segment offset refseg : Nat),
        Line.reloc i segment offset refseg ∉ (main 2 (some content) malloc).stdout := by
  have hm : malloc ((asHeader content).e_num_relocs * 4) = true := by
    rw [hzero]
    exact hmalloc
  have hrun := main_readable_table content malloc h28 hsig (Or.inl hzero) hm
  have hnone : specResolved content (asHeader content) = [] := by
    unfold specResolved
    rw [hzero]
    rfl
  rw [hnone, List.append_nil] at hrun
  have hstdout : (main 2 (some content) malloc).stdout = headerInfo (asHeader content) := by
    rw [hrun]
  refine ⟨by rw [hrun], hstdout, hnone, ?_⟩
  intro i segment offset refseg hmem
  rw [hstdout] at hmem
  simp [headerInfo] at hmem

/-- Witness for claim C13: `emptyTableExe` has no relocation entry and a table
offset of 64, past the end of its 28 bytes. -/
theorem no_relocs_success_witness :
    28 ≤ emptyTableExe.length ∧ (asHeader emptyTableExe).e_signature = 0x5a4d
    ∧ (asHeader emptyTableExe).e_num_relocs = 0
    ∧ emptyTableExe.length < (asHeader emptyTableExe).e_reloc_table_offset
    ∧ (main 2 (some emptyTableExe) mallocOk).status = EXIT_SUCCESS
    ∧ (main 2 (some emptyTableExe) mallocOk).stdout = headerInfo (asHeader emptyTableExe) :=
  have h := no_relocs_success emptyTableExe mallocOk (by decide) (by decide) (by decide) rfl
  ⟨by decide, by decide, by decide, by decide, h.1, h.2.1⟩

/-! ## Repeated runs and release of resources -/

/-- A store leaves the bytes below it as they were. -/
theorem store_below (mem : Mem) (off : Nat) (bytes : List Byte) (a : Nat) (h : a < off) :
    store mem off bytes a = mem a := by
  unfold store
  have hn : ¬ (off ≤ a ∧ a < off + bytes.length) := by omega
  rw [if_neg hn]

/-- A store puts its bytes at their offsets. -/
theorem store_inside (mem : Mem) (off : Nat) (bytes : List Byte) (k : Nat)
    (h : k < bytes.length) : store mem off bytes (off + k) = bytes.getD k 0 := by
  unfold store
  have hy : off ≤ off + k ∧ off + k < off + bytes.length := by omega
  rw [if_pos hy, Nat.add_sub_cancel_left]

/-- A word that lies inside stored bytes is the word of these bytes. -/
theorem wordAt_store (mem : Mem) (off : Nat) (bytes : List Byte) (k : Nat)
    (h : k + 2 ≤ bytes.length) : wordAt (store mem off bytes) (off + k) = word bytes k := by
  unfold wordAt word
  rw [store_inside mem off bytes k (by omega), Nat.add_assoc,
    store_inside mem off bytes (k + 1) (by omega)]

/-- A word that lies inside bytes stored at offset 0. -/
theorem wordAt_store_zero (mem : Mem) (bytes : List Byte) (k : Nat)
    (h : k + 2 ≤ bytes.length) : wordAt (store mem 0 bytes) k = word bytes k := by
  have e := wordAt_store mem 0 bytes k h
  rw [Nat.zero_add] at e
  exact e

/-- A complete read into an object stores the item that was read. -/
theorem freadAt_of_some (mem : Mem) (off size : Nat) (fp fp1 : FILE) (buf : List Byte)
    (h : fread size fp = (some buf, fp1)) :
    freadAt mem off size fp = (true, store mem off buf, fp1) ∧ buf.length = size := by
  unfold fread at h
  unfold freadAt
  simp only [Prod.mk.injEq] at h
  obtain ⟨h1, h2⟩ := h
  by_cases hlen : ((fp.data.drop fp.pos).take size).length = size
  · rw [if_pos hlen] at h1
    have hbuf : (fp.data.drop fp.pos).take size = buf := Option.some.inj h1
    subst hbuf
    subst h2
    simp only [hlen, decide_True, and_self]
  · rw [if_neg hlen] at h1
    exact absurd h1 (by simp)

/-- A short read into an object returns 0 and moves the cursor alike. -/
theorem freadAt_of_none (mem : Mem) (off size : Nat) (fp fp1 : FILE)
    (h : fread size fp = (none, fp1)) :
    ∃ m, freadAt mem off size fp = (false, m, fp1) := by
  unfold fread at h
  unfold freadAt
  simp only [Prod.mk.injEq] at h
  obtain ⟨h1, h2⟩ := h
  by_cases hlen : ((fp.data.drop fp.pos).take size).length = size
  · rw [if_pos hlen] at h1
    exact absurd h1 (by simp)
  · refine ⟨store mem off ((fp.data.drop fp.pos).take size), ?_⟩
    simp only [hlen, decide_False, h2]

/-- The local `header` after a complete read holds the record of the bytes
that were read, whatever it held before. -/
theorem headerAt_store (header0 : Mem) (buf : List Byte) (h : buf.length = 28) :
    headerAt (store header0 0 buf) = asHeader buf := by
  unfold headerAt asHeader
  simp only [wordAt_store_zero header0 buf _ (by omega : (0 : Nat) + 2 ≤ buf.length),
    wordAt_store_zero header0 buf _ (by omega : (2 : Nat) + 2 ≤ buf.length),
    wordAt_store_zero header0 buf _ (by omega : (4 : Nat) + 2 ≤ buf.length),
    wordAt_store_zero header0 buf _ (by omega : (6 : Nat) + 2 ≤ buf.length),
    wordAt_store_zero header0 buf _ (by omega : (8 : Nat) + 2 ≤ buf.length),
    wordAt_store_zero header0 buf _ (by omega : (10 : Nat) + 2 ≤ buf.length),
    wordAt_store_zero header0 buf _ (by omega : (12 : Nat) + 2 ≤ buf.length),
    wordAt_store_zero header0 buf _ (by omega : (14 : Nat) + 2 ≤ buf.length),
    wordAt_store_zero header0 buf _ (by omega : (16 : Nat) + 2 ≤ buf.length),
    wordAt_store_zero header0 buf _ (by omega : (18 : Nat) + 2 ≤ buf.length),
    wordAt_store_zero header0 buf _ (by omega : (20 : Nat) + 2 ≤ buf.length),
    wordAt_store_zero header0 buf _ (by omega : (22 : Nat) + 2 ≤ buf.length),
    wordAt_store_zero header0 buf _ (by omega : (24 : Nat) + 2 ≤ buf.length),
    wordAt_store_zero header0 buf _ (by omega : (26 : Nat) + 2 ≤ buf.length)]

/-- The first loop on a buffer: it jumps to `out` exactly when the loop on
items does, and otherwise every element it was to fill holds the entry that
was read for it, whatever the buffer held before; the bytes below the first
element are left as they were. -/
theorem readRelocsAt_refines (n : Nat) :
    ∀ (i : Nat) (preloc : Mem) (fp : FILE),
      (readRelocs n fp = none → readRelocsAt n i preloc fp = none)
      ∧ ∀ (rs : List EXE_RELOC) (fp1 : FILE), readRelocs n fp = some (rs, fp1) →
          ∃ p, readRelocsAt n i preloc fp = some (p, fp1)
            ∧ (∀ a, a < 4 * i → p a = preloc a)
            ∧ rs = (List.range n).map fun j => relocAt p (i + j) := by
  induction n with
  | zero =>
    intro i preloc fp
    refine ⟨fun h => ?_, fun rs fp1 h => ?_⟩
    · simp [readRelocs] at h
    · simp only [readRelocs, Option.some.injEq, Prod.mk.injEq] at h
      obtain ⟨h1, h2⟩ := h
      subst h1 h2
      exact ⟨preloc, rfl, fun _ _ => rfl, rfl⟩
  | succ n ih =>
    intro i preloc fp
    rcases hfr : fread sizeof_EXE_RELOC fp with ⟨o, fpa⟩
    cases o with
    | none =>
      obtain ⟨m, hm⟩ := freadAt_of_none preloc (sizeof_EXE_RELOC * i) _ fp fpa hfr
      refine ⟨fun _ => ?_, fun rs fp1 h => ?_⟩
      · rw [readRelocsAt, hm]
      · rw [readRelocs, hfr] at h
        simp at h
    | some buf =>
      obtain ⟨hm, hlen⟩ := freadAt_of_some preloc (sizeof_EXE_RELOC * i) _ fp fpa buf hfr
      have hlen4 : buf.length = 4 := hlen
      obtain ⟨ihnone, ihsome⟩ := ih (i + 1) (store preloc (sizeof_EXE_RELOC * i) buf) fpa
      refine ⟨fun h => ?_, fun rs fp1 h => ?_⟩
      · rw [readRelocsAt, hm]
        simp only
        apply ihnone
        rw [readRelocs, hfr] at h
        simp only at h
        cases hrest : readRelocs n fpa with
        | none => rfl
        | some q =>
          rw [hrest] at h
          simp at h
      · rw [readRelocs, hfr] at h
        simp only at h
        cases hrest : readRelocs n fpa with
        | none =>
          rw [hrest] at h
          simp at h
        | some q =>
          obtain ⟨rest, fp2⟩ := q
          rw [hrest] at h
          simp only [Option.some.injEq, Prod.mk.injEq] at h
          obtain ⟨h1, h2⟩ := h
          subst h1 h2
          obtain ⟨p, hp, hframe, hrest2⟩ := ihsome rest fp2 hrest
          refine ⟨p, ?_, ?_, ?_⟩
          · rw [readRelocsAt, hm]
            simp only
            exact hp
          · intro a ha
            rw [hframe a (by omega), store_below _ _ _ _ (by unfold sizeof_EXE_RELOC; omega)]
          · have hw : ∀ k, k + 2 ≤ 4 → wordAt p (4 * i + k) = word buf k := by
              intro k hk
              have e := wordAt_store preloc (4 * i) buf k (by omega)
              unfold wordAt at e ⊢
              rw [hframe (4 * i + k) (by omega), hframe (4 * i + k + 1) (by omega)]
              exact e
            have hhead : relocAt p (i + 0) = asReloc buf := by
              unfold relocAt asReloc
              have e0 := hw 0 (by omega)
              have e2 := hw 2 (by omega)
              simp only [Nat.add_zero] at e0 ⊢
              rw [e0, e2]
            rw [List.range_succ_eq_map, List.map_cons, List.map_map, hhead, hrest2]
            have hf : ((fun j => relocAt p (i + j)) ∘ Nat.succ)
                = fun j => relocAt p (i + 1 + j) := by
              funext j
              simp only [Function.comp, Nat.succ_eq_add_one]
              rw [show i + (j + 1) = i + 1 + j by omega]
            rw [hf]

/-- The second loop on a buffer prints what the loop on the entries that the
buffer holds prints, whatever `r_refseg` holds when a round begins. -/
theorem resolveRelocsAt_refines (hsz : Nat) (r_refseg : Nat → Mem) (preloc : Mem) (n : Nat) :
    ∀ (i : Nat) (fp : FILE),
      resolveRelocsAt hsz r_refseg preloc n i fp
        = resolveRelocs hsz i ((List.range n).map fun j => relocAt preloc (i + j)) fp := by
  induction n with
  | zero =>
    intro i fp
    rfl
  | succ n ih =>
    intro i fp
    have hf : ((fun j => relocAt preloc (i + j)) ∘ Nat.succ)
        = fun j => relocAt preloc (i + 1 + j) := by
      funext j
      simp only [Function.comp, Nat.succ_eq_add_one]
      rw [show i + (j + 1) = i + 1 + j by omega]
    rw [List.range_succ_eq_map, List.map_cons, List.map_map, hf, resolveRelocs_unfold,
      resolveRelocsAt]
    simp only [Nat.add_zero]
    rcases hfr : fread 2 (fseek fp (relocOffset (relocAt preloc i) hsz)) with ⟨o, fpa⟩
    cases o with
    | none =>
      obtain ⟨m, hm⟩ := freadAt_of_none (r_refseg i) 0 2 _ fpa hfr
      rw [hm]
      simp only
      rw [ih (i + 1) fpa]
    | some buf =>
      obtain ⟨hm, hlen⟩ := freadAt_of_some (r_refseg i) 0 2 _ fpa buf hfr
      rw [hm]
      simp only
      rw [ih (i + 1) fpa, wordAt_store_zero (r_refseg i) buf 0 (by omega)]

/-- The run with its memory made explicit ends as the run on items does,
whatever the objects hold before they are written. -/
theorem mainWithMemory_eq_main (argc : Nat) (file : Option (List Byte)) (malloc : Nat → Bool)
    (header0 heap : Mem) (r_refseg : Nat → Mem) :
    mainWithMemory argc file malloc header0 heap r_refseg = main argc file malloc := by
  unfold mainWithMemory main
  by_cases hargc : argc ≠ 2
  · rw [if_pos hargc, if_pos hargc]
  · rw [if_neg hargc, if_neg hargc]
    cases file with
    | none => rfl
    | some content =>
      simp only
      rcases hfr : fread sizeof_EXE_HEADER (fopen content) with ⟨o, fp⟩
      cases o with
      | none =>
        obtain ⟨m, hm⟩ := freadAt_of_none header0 0 _ _ fp hfr
        rw [hm]
      | some buf =>
        obtain ⟨hm, hlen⟩ := freadAt_of_some header0 0 _ _ fp buf hfr
        rw [hm]
        simp only
        rw [headerAt_store header0 buf hlen]
        by_cases hsig : ((asHeader buf).e_signature : Int) ≠ MAGIC
        · rw [if_pos hsig, if_pos hsig]
        · rw [if_neg hsig, if_neg hsig]
          by_cases hmal : malloc (mulSizeT (asHeader buf).e_num_relocs sizeof_EXE_RELOC) = false
          · rw [if_pos hmal, if_pos hmal]
          · rw [if_neg hmal, if_neg hmal]
            obtain ⟨hnone, hsome⟩ := readRelocsAt_refines (asHeader buf).e_num_relocs 0 heap
              (fseek fp ((asHeader buf).e_reloc_table_offset : Int))
            cases hrd : readRelocs (asHeader buf).e_num_relocs
                (fseek fp ((asHeader buf).e_reloc_table_offset : Int)) with
            | none => rw [hnone hrd]
            | some q =>
              obtain ⟨rs, fp1⟩ := q
              obtain ⟨p, hp, _, hrs⟩ := hsome rs fp1 hrd
              rw [hp]
              simp only
              rw [resolveRelocsAt_refines, hrs]

/-- Claim C14: the exit status and the report of a run are given by the bytes
of the file and by the answer of the allocator to the one request of the run,
and by nothing else: two runs on the same content end alike whatever the
local `header`, the allocated buffer and the local `r_refseg` hold before they
are written, provided the two allocators answer the request alike. The status
is success exactly when the file has 28 bytes, the signature, an allocated
buffer and a readable table, and the report is then the header lines followed
by the resolved records of the specification. The second loop prints these
records on any stream over the same bytes, wherever its cursor stands. -/
theorem outcome_fixed_by_bytes (content : List Byte) (m1 m2 : Nat → Bool)
    (header1 header2 heap1 heap2 : Mem) (refseg1 refseg2 : Nat → Mem)
    (hm : m1 (mulSizeT (asHeader content).e_num_relocs sizeof_EXE_RELOC)
      = m2 (mulSizeT (asHeader content).e_num_relocs sizeof_EXE_RELOC)) :
    mainWithMemory 2 (some content) m1 header1 heap1 refseg1
      = mainWithMemory 2 (some content) m2 header2 heap2 refseg2
    ∧ (mainWithMemory 2 (some content) m1 header1 heap1 refseg1).status
        = (if 28 ≤ content.length ∧ (asHeader content).e_signature = 0x5a4d
              ∧ m1 (mulSizeT (asHeader content).e_num_relocs sizeof_EXE_RELOC) = true
              ∧ ((asHeader content).e_num_relocs = 0
                ∨ (asHeader content).e_reloc_table_offset
                    + 4 * (asHeader content).e_num_relocs ≤ content.length)
          then EXIT_SUCCESS else EXIT_FAILURE)
    ∧ (mainWithMemory 2 (some content) m1 header1 heap1 refseg1).stdout
        = (if 28 ≤ content.length ∧ (asHeader content).e_signature = 0x5a4d then
            headerInfo (asHeader content)
              ++ (if m1 (mulSizeT (asHeader content).e_num_relocs sizeof_EXE_RELOC) = true
                    ∧ ((asHeader content).e_num_relocs = 0
                      ∨ (asHeader content).e_reloc_table_offset
                          + 4 * (asHeader content).e_num_relocs ≤ content.length)
                  then specResolved content (asHeader content) else [])
          else [])
    ∧ ∀ (fp : FILE) (preloc : Mem) (r_refseg : Nat → Mem), fp.data = content →
        (∀ j, j < (asHeader content).e_num_relocs →
          relocAt preloc j = entryAt content (asHeader content).e_reloc_table_offset j) →
        resolveRelocsAt (hs (asHeader content)) r_refseg preloc
            (asHeader content).e_num_relocs 0 fp
          = specResolved content (asHeader content) := by
  have hn : (asHeader content).e_num_relocs < 65536 := word_lt _ _
  have hp : (asHeader content).e_header_paragraphs < 65536 := word_lt _ _
  have hhs : hs (asHeader content) = (asHeader content).e_header_paragraphs * 16 := by
    unfold hs toSizeT PARAGRAPH_SIZE
    omega
  have hmul : mulSizeT (asHeader content).e_num_relocs sizeof_EXE_RELOC
      = (asHeader content).e_num_relocs * 4 := by
    unfold mulSizeT sizeof_EXE_RELOC
    omega
  have hsame : main 2 (some content) m1 = main 2 (some content) m2 := by
    by_cases h28 : 28 ≤ content.length
    · rw [main_header_read content m1 h28, main_header_read content m2 h28, hm]
    · rw [main_truncated_header content m1 (by omega),
        main_truncated_header content m2 (by omega)]
  rw [mainWithMemory_eq_main, mainWithMemory_eq_main]
  refine ⟨hsame, ?_, ?_, ?_⟩
  · by_cases h28 : 28 ≤ content.length
    · by_cases hsig : (asHeader content).e_signature = 0x5a4d
      · by_cases hserved : m1 (mulSizeT (asHeader content).e_num_relocs sizeof_EXE_RELOC) = true
        · by_cases htable : (asHeader content).e_num_relocs = 0
              ∨ (asHeader content).e_reloc_table_offset
                  + 4 * (asHeader content).e_num_relocs ≤ content.length
          · rw [if_pos ⟨h28, hsig, hserved, htable⟩,
              main_readable_table content m1 h28 hsig htable (hmul ▸ hserved)]
          · have hcond : ¬ (28 ≤ content.length ∧ (asHeader content).e_signature = 0x5a4d
                ∧ m1 (mulSizeT (asHeader content).e_num_relocs sizeof_EXE_RELOC) = true
                ∧ ((asHeader content).e_num_relocs = 0
                  ∨ (asHeader content).e_reloc_table_offset
                      + 4 * (asHeader content).e_num_relocs ≤ content.length)) :=
              fun h => htable h.2.2.2
            have hmagic : ¬ (((asHeader content).e_signature : Int) ≠ MAGIC) := by
              rw [hsig]; decide
            have hmf : ¬ (m1 (mulSizeT (asHeader content).e_num_relocs sizeof_EXE_RELOC)
                = false) := by
              rw [hserved]; decide
            rw [if_neg hcond, main_header_read content m1 h28, if_neg hmagic, if_neg hmf,
              readRelocs_truncated _ _ (by omega) (by simp only; omega)]
            rfl
        · have hcond : ¬ (28 ≤ content.length ∧ (asHeader content).e_signature = 0x5a4d
              ∧ m1 (mulSizeT (asHeader content).e_num_relocs sizeof_EXE_RELOC) = true
              ∧ ((asHeader content).e_num_relocs = 0
                ∨ (asHeader content).e_reloc_table_offset
                    + 4 * (asHeader content).e_num_relocs ≤ content.length)) :=
            fun h => hserved h.2.2.1
          have hmagic : ¬ (((asHeader content).e_signature : Int) ≠ MAGIC) := by
            rw [hsig]; decide
          have hmf : m1 (mulSizeT (asHeader content).e_num_relocs sizeof_EXE_RELOC) = false := by
            cases hb : m1 (mulSizeT (asHeader content).e_num_relocs sizeof_EXE_RELOC) with
            | false => rfl
            | true => exact absurd hb hserved
          rw [if_neg hcond, main_header_read content m1 h28, if_neg hmagic, if_pos hmf]
          rfl
      · have hcond : ¬ (28 ≤ content.length ∧ (asHeader content).e_signature = 0x5a4d
            ∧ m1 (mulSizeT (asHeader content).e_num_relocs sizeof_EXE_RELOC) = true
            ∧ ((asHeader content).e_num_relocs = 0
              ∨ (asHeader content).e_reloc_table_offset
                  + 4 * (asHeader content).e_num_relocs ≤ content.length)) :=
          fun h => hsig h.2.1
        have hmagic : ((asHeader content).e_signature : Int) ≠ MAGIC := by
          unfold MAGIC
          omega
        rw [if_neg hcond, main_header_read content m1 h28, if_pos hmagic]
        rfl
    · have hcond : ¬ (28 ≤ content.length ∧ (asHeader content).e_signature = 0x5a4d
          ∧ m1 (mulSizeT (asHeader content).e_num_relocs sizeof_EXE_RELOC) = true
          ∧ ((asHeader content).e_num_relocs = 0
            ∨ (asHeader content).e_reloc_table_offset
                + 4 * (asHeader content).e_num_relocs ≤ content.length)) :=
        fun h => h28 h.1
      rw [if_neg hcond, main_truncated_header content m1 (by omega)]
      rfl
  · by_cases h28 : 28 ≤ content.length
    · by_cases hsig : (asHeader content).e_signature = 0x5a4d
      · have hmagic : ¬ (((asHeader content).e_signature : Int) ≠ MAGIC) := by
          rw [hsig]; decide
        rw [if_pos ⟨h28, hsig⟩]
        by_cases hserved : m1 (mulSizeT (asHeader content).e_num_relocs sizeof_EXE_RELOC) = true
        · by_cases htable : (asHeader content).e_num_relocs = 0
              ∨ (asHeader content).e_reloc_table_offset
                  + 4 * (asHeader content).e_num_relocs ≤ content.length
          · rw [if_pos ⟨hserved, htable⟩,
              main_readable_table content m1 h28 hsig htable (hmul ▸ hserved)]
          · have hmf : ¬ (m1 (mulSizeT (asHeader content).e_num_relocs sizeof_EXE_RELOC)
                = false) := by
              rw [hserved]; decide
            rw [if_neg (fun h => htable h.2), main_header_read content m1 h28, if_neg hmagic,
              if_neg hmf, readRelocs_truncated _ _ (by omega) (by simp only; omega),
              List.append_nil]
            rfl
        · have hmf : m1 (mulSizeT (asHeader content).e_num_relocs sizeof_EXE_RELOC) = false := by
            cases hb : m1 (mulSizeT (asHeader content).e_num_relocs sizeof_EXE_RELOC) with
            | false => rfl
            | true => exact absurd hb hserved
          rw [if_neg (fun h => hserved h.1), main_header_read content m1 h28, if_neg hmagic,
            if_pos hmf, List.append_nil]
          rfl
      · have hmagic : ((asHeader content).e_signature : Int) ≠ MAGIC := by
          unfold MAGIC
          omega
        rw [if_neg (fun h => hsig h.2), main_header_read content m1 h28, if_pos hmagic]
        rfl
    · rw [if_neg (fun h => h28 h.1), main_truncated_header content m1 (by omega)]
      rfl
  · intro fp preloc r_refseg hd hentries
    rw [resolveRelocsAt_refines]
    have hmap : (List.range (asHeader content).e_num_relocs).map
          (fun j => relocAt preloc (0 + j))
        = (List.range (asHeader content).e_num_relocs).map
          (fun j => entryAt content (asHeader content).e_reloc_table_offset (0 + j)) := by
      apply List.map_congr_left
      intro j hj
      rw [Nat.zero_add]
      exact hentries j (List.mem_range.mp hj)
    rw [hmap, resolveRelocs_table content (asHeader content).e_reloc_table_offset
      (hs (asHeader content)) (by omega) (asHeader content).e_num_relocs 0 fp hd (by omega),
      hhs]
    unfold specResolved
    simp only [Nat.zero_add]

/-- Witness for claim C14: two runs on `sampleExe`, one with an allocator that
never fails and objects that hold `0x00` bytes, one with an allocator that
serves small requests only and objects that hold `0xFF` bytes. -/
theorem outcome_fixed_by_bytes_witness :
    mallocOk (mulSizeT (asHeader sampleExe).e_num_relocs sizeof_EXE_RELOC)
      = mallocSmall (mulSizeT (asHeader sampleExe).e_num_relocs sizeof_EXE_RELOC)
    ∧ mallocOk 100 ≠ mallocSmall 100
    ∧ zeroMem 0 ≠ onesMem 0
    ∧ mainWithMemory 2 (some sampleExe) mallocOk zeroMem zeroMem (fun _ => zeroMem)
        = mainWithMemory 2 (some sampleExe) mallocSmall onesMem onesMem (fun _ => onesMem)
    ∧ (mainWithMemory 2 (some sampleExe) mallocOk zeroMem zeroMem (fun _ => zeroMem)).status
        = EXIT_SUCCESS
    ∧ (mainWithMemory 2 (some sampleExe) mallocOk zeroMem zeroMem (fun _ => zeroMem)).stdout
        = headerInfo (asHeader sampleExe) ++ [Line.reloc 0 0 4 0xBEEF] :=
  have h := outcome_fixed_by_bytes sampleExe mallocOk mallocSmall zeroMem onesMem zeroMem
    onesMem (fun _ => zeroMem) (fun _ => onesMem) (by decide)
  ⟨by decide, by decide, by decide, h.1, by decide, by decide⟩

/-- Claim C15 is right and the code is not, on the path of successful
completion: the run on `sampleExe` ends with the success status and calls
neither `fclose` nor `free`, though the stream is open and the table buffer
allocated. The sibling paths do release what they hold: the run on `shortExe`
(truncated header) and the run on `wrongMagicExe` (invalid signature) close
the stream, and so does the run on `sampleExe` whose allocation fails; the run
on `cutTableExe` (truncated table) closes the stream and frees the buffer. -/
theorem success_path_releases_nothing :
    (main 2 (some sampleExe) mallocOk).status = EXIT_SUCCESS
    ∧ (main 2 (some sampleExe) mallocOk).fclosed = false
    ∧ (main 2 (some sampleExe) mallocOk).freed = false
    ∧ (main 2 (some shortExe) mallocOk).status = EXIT_FAILURE
    ∧ (main 2 (some shortExe) mallocOk).fclosed = true
    ∧ (main 2 (some wrongMagicExe) mallocOk).status = EXIT_FAILURE
    ∧ (main 2 (some wrongMagicExe) mallocOk).fclosed = true
    ∧ (main 2 (some sampleExe) (fun _ => false)).status = EXIT_FAILURE
    ∧ (main 2 (some sampleExe) (fun _ => false)).fclosed = true
    ∧ (main 2 (some sampleExe) (fun _ => false)).freed = false
    ∧ (main 2 (some cutTableExe) mallocOk).status = EXIT_FAILURE
    ∧ (main 2 (some cutTableExe) mallocOk).fclosed = true
    ∧ (main 2 (some cutTableExe) mallocOk).freed = true := by
  decide

/-! ## Ranges of the computed offsets and sizes -/

/-- Claim C16: for a 16-bit segment, offset and `header_paragraphs`, the
offset computed for a relocation target lies between `header_paragraphs × 16`
and 2162655 `= 65535 × 16 + 65535 + 65535 × 16`; the `int` part of the
computation, `(segment << 4) + offset`, stays between 0 and `2^31 − 1`, the
result fits a 32-bit signed integer and is not negative, and the seek puts the
cursor at it. The upper bound is reached. -/
theorem reloc_offset_bounds (r : EXE_RELOC) (header : EXE_HEADER) (fp : FILE)
    (hseg : r.r_segment < 65536) (hoff : r.r_offset < 65536)
    (hpar : header.e_header_paragraphs < 65536) :
    ((header.e_header_paragraphs * 16 : Nat) : Int) ≤ relocOffset r (hs header)
    ∧ relocOffset r (hs header) ≤ 2162655
    ∧ relocOffset r (hs header) ≤ 2147483647
    ∧ 0 ≤ relocOffset r (hs header)
    ∧ ((r.r_segment <<< 4 : Nat) : Int) ≤ 2147483647
    ∧ ((r.r_segment <<< 4 : Nat) : Int) + (r.r_offset : Int) ≤ 2147483647
    ∧ ((fseek fp (relocOffset r (hs header))).pos : Int) = relocOffset r (hs header)
    ∧ (2162655 : Int) = 65535 * 16 + 65535 + 65535 * 16
    ∧ relocOffset { r_offset := 65535, r_segment := 65535 }
        (hs { blankHeader with e_header_paragraphs := 65535 }) = 2162655 := by
  have hhs : hs header = header.e_header_paragraphs * 16 := by
    unfold hs toSizeT PARAGRAPH_SIZE
    omega
  have hsh : r.r_segment <<< 4 = r.r_segment * 16 := by
    rw [Nat.shiftLeft_eq]
  have hoffset := relocOffset_eq r (hs header) hseg hoff (by omega)
  have hseek : ((fseek fp (relocOffset r (hs header))).pos : Int)
      = relocOffset r (hs header) := by
    rw [hoffset, fseek_nat]
  unfold absoluteOffset at hoffset
  rw [hoffset, hhs, hsh]
  rw [hoffset, hhs, hsh] at hseek
  refine ⟨?_, ?_, ?_, ?_, ?_, ?_, hseek, by decide, by decide⟩ <;> omega

/-- Witness for claim C16: entry 1 of `sampleExe`, `1000:0006`, behind a header
of two paragraphs. -/
theorem reloc_offset_bounds_witness :
    (entryAt sampleExe 28 1).r_segment < 65536 ∧ (entryAt sampleExe 28 1).r_offset < 65536
    ∧ (asHeader sampleExe).e_header_paragraphs < 65536
    ∧ (((asHeader sampleExe).e_header_paragraphs * 16 : Nat) : Int)
        ≤ relocOffset (entryAt sampleExe 28 1) (hs (asHeader sampleExe))
    ∧ relocOffset (entryAt sampleExe 28 1) (hs (asHeader sampleExe)) ≤ 2162655 :=
  have h := reloc_offset_bounds (entryAt sampleExe 28 1) (asHeader sampleExe) (fopen sampleExe)
    (by decide) (by decide) (by decide)
  ⟨by decide, by decide, by decide, h.1, h.2.1⟩

/-- Claim C17: for a header with 16-bit fields and `blocks_in_file ≥ 1`, the
whole file size computed by the program lies between 1 and 33618943
`= 65534 × 512 + 65535`; the `int` expression it is converted from is not
negative, nor is its factor `blocks_in_file − 1`, it fits a 32-bit signed
integer, and the conversion to `size_t` keeps its value. Both bounds are
reached. -/
theorem wfz_bounds (header : EXE_HEADER)
    (hb : header.e_bytes_in_last_block < 65536) (hk : header.e_blocks_in_file < 65536)
    (h1 : 1 ≤ header.e_blocks_in_file) :
    1 ≤ wfz header ∧ wfz header ≤ 33618943
    ∧ 0 ≤ (header.e_blocks_in_file : Int) - 1
    ∧ 0 ≤ ((header.e_blocks_in_file : Int) - 1) * BLOCK_SIZE
    ∧ ((header.e_blocks_in_file : Int) - 1) * BLOCK_SIZE
        + (header.e_bytes_in_last_block : Int) ≤ 2147483647
    ∧ (header.e_blocks_in_file : Int) * BLOCK_SIZE ≤ 2147483647
    ∧ (wfz header : Int) = (if header.e_bytes_in_last_block = 0
        then (header.e_blocks_in_file : Int) * BLOCK_SIZE
        else ((header.e_blocks_in_file : Int) - 1) * BLOCK_SIZE
          + (header.e_bytes_in_last_block : Int))
    ∧ (33618943 : Nat) = 65534 * 512 + 65535
    ∧ wfz { blankHeader with e_bytes_in_last_block := 1, e_blocks_in_file := 1 } = 1
    ∧ wfz { blankHeader with e_bytes_in_last_block := 65535, e_blocks_in_file := 65535 }
        = 33618943 := by
  have hconv : (wfz header : Int) = (if header.e_bytes_in_last_block = 0
      then (header.e_blocks_in_file : Int) * BLOCK_SIZE
      else ((header.e_blocks_in_file : Int) - 1) * BLOCK_SIZE
        + (header.e_bytes_in_last_block : Int)) := by
    unfold wfz toSizeT BLOCK_SIZE
    split <;> omega
  refine ⟨?_, ?_, ?_, ?_, ?_, ?_, hconv, by decide, by decide, by decide⟩
  · unfold BLOCK_SIZE at hconv
    split at hconv <;> omega
  · unfold BLOCK_SIZE at hconv
    split at hconv <;> omega
  · omega
  · unfold BLOCK_SIZE
    omega
  · unfold BLOCK_SIZE
    omega
  · unfold BLOCK_SIZE
    omega

/-- Witness for claim C17: the header of `tinyImageExe`, one block with one
byte in it, where the lower bound is reached. -/
theorem wfz_bounds_witness :
    (asHeader tinyImageExe).e_bytes_in_last_block < 65536
    ∧ (asHeader tinyImageExe).e_blocks_in_file < 65536
    ∧ 1 ≤ (asHeader tinyImageExe).e_blocks_in_file
    ∧ 1 ≤ wfz (asHeader tinyImageExe) ∧ wfz (asHeader tinyImageExe) ≤ 33618943 :=
  have h := wfz_bounds (asHeader tinyImageExe) (by decide) (by decide) (by decide)
  ⟨by decide, by decide, by decide, h.1, h.2.1⟩

end Rdexe
